import Mathlib

/-!
Verification of the rue compiler core against its specification.

This file gives a shallow embedding, in Lean 4, of the parts of the rue
compiler that the checked claims are about:

* the symbol / scope / HIR / LIR data model (`crates/rue-compiler/src/symbol.rs`,
  and the `Hir`/`Lir` variant lists documented in the spec's data model, which
  match the constructors used by `optimizer.rs`);
* capture analysis and environment layout (`crates/rue-compiler/src/optimizer.rs`);
* HIR-to-LIR lowering (`optimizer.rs`);
* the expression grammar of the parser (`crates/rue-parser/src/grammar.rs`);
* the command-line driver's error handling (`crates/rue-cli/src/main.rs`).

Arena ids (`SymbolId`, `ScopeId`, `HirId`, `LirId`) are modelled as `Nat`
indices into lists.  Rust `HashMap`s keyed by ids are modelled as association
lists with `HashMap::insert` semantics (replace-or-append); iteration order of
the maps is never relied upon by the embedded code, only lookups, so the
association-list representation is faithful.  `IndexSet` is modelled as a
duplicate-free list with append-at-end insertion, which is exactly its
insertion-order contract.  Rust panics (`unwrap`, `expect`, `assert!`,
`unreachable!`) are modelled as `Option.none`; recursion that Rust runs
unboundedly is given explicit fuel.
-/

namespace Rue

/-- The `Symbol` enum of `symbol.rs`.  The `ty`/`type_id` payloads carry no
information used by any embedded computation and are omitted. -/
inductive Symbol where
  | Function (scope_id : Nat) (hir_id : Nat)
  | Parameter
  | LetBinding (hir_id : Nat)
  | ConstBinding (hir_id : Nat)
deriving DecidableEq, Repr

/-- `Symbol::is_parameter` from `symbol.rs`. -/
def Symbol.is_parameter : Symbol → Bool
  | .Parameter => true
  | _ => false

/-- `Symbol::is_capturable` from `symbol.rs`: everything except `ConstBinding`. -/
def Symbol.is_capturable : Symbol → Bool
  | .ConstBinding _ => false
  | _ => true

/-- `Symbol::is_definition` from `symbol.rs`: `Function` or `LetBinding`. -/
def Symbol.is_definition : Symbol → Bool
  | .Function _ _ => true
  | .LetBinding _ => true
  | _ => false

/-- A scope: its ordered local symbols and the set of symbols used from within
it (spec §3 "Scope"; the scope arena itself is built during lowering). -/
structure Scope where
  local_symbols : List Nat
  used_symbols : List Nat
deriving DecidableEq, Repr

/-- `Scope::is_local`: the symbol is defined or a parameter here. -/
def Scope.is_local (s : Scope) (symbol_id : Nat) : Bool :=
  s.local_symbols.contains symbol_id

/-- The binary operators of the HIR, as matched by `opt_hir` in `optimizer.rs`. -/
inductive BinaryOp where
  | Add
  | Subtract
  | Multiply
  | Divide
  | Remainder
  | LessThan
  | GreaterThan
  | LessThanEquals
  | GreaterThanEquals
  | Equals
  | NotEquals
deriving DecidableEq, Repr

/-- The `Hir` node variants (spec §3 "HIR"; the constructors and payloads are
exactly those matched in `optimizer.rs`).  Atom bytes are modelled as
`List Nat`; the `ListIndex` index, a `BigInt` in the source, is an `Int`. -/
inductive Hir where
  | Unknown
  | Atom (bytes : List Nat)
  | Reference (symbol_id : Nat)
  | Scope (scope_id : Nat) (value : Nat)
  | FunctionCall (callee : Nat) (args : List Nat)
  | BinaryOp (op : BinaryOp) (lhs : Nat) (rhs : Nat)
  | Not (value : Nat)
  | If (condition : Nat) (then_block : Nat) (else_block : Nat)
  | List (items : List Nat)
  | ListIndex (value : Nat) (index : Int)
deriving DecidableEq, Repr

/-- The `Lir` node variants (spec §3 "LIR"; constructors as allocated by
`optimizer.rs`). -/
inductive Lir where
  | Atom (bytes : List Nat)
  | Path (path : Nat)
  | Curry (body : Nat) (args : List Nat)
  | Closure (body : Nat) (captures : List Nat)
  | FunctionBody (body : Nat)
  | Run (callee : Nat) (args : List Nat)
  | List (items : List Nat)
  | First (value : Nat)
  | Rest (value : Nat)
  | Add (args : List Nat)
  | Sub (args : List Nat)
  | Mul (args : List Nat)
  | Div (lhs : Nat) (rhs : Nat)
  | Divmod (lhs : Nat) (rhs : Nat)
  | Gt (lhs : Nat) (rhs : Nat)
  | Eq (lhs : Nat) (rhs : Nat)
  | Any (args : List Nat)
  | Not (value : Nat)
  | If (condition : Nat) (then_block : Nat) (else_block : Nat)
deriving DecidableEq, Repr

/-- The read-only part of the compiler database: the symbol, scope and HIR
arenas, fully built by lowering before the optimizer runs. -/
structure Database where
  symbols : List Symbol
  scopes : List Scope
  hirs : List Hir
deriving DecidableEq, Repr

/-- `Database::symbol` (total: out-of-range ids, which panic in Rust, return a
default; all uses are guarded by well-formedness side conditions). -/
def Database.symbol (db : Database) (symbol_id : Nat) : Symbol :=
  db.symbols.getD symbol_id Symbol.Parameter

/-- `Database::scope` (total, same convention as `Database.symbol`). -/
def Database.scope (db : Database) (scope_id : Nat) : Scope :=
  db.scopes.getD scope_id ⟨[], []⟩

/-- `Database::hir` (total, same convention as `Database.symbol`). -/
def Database.hir (db : Database) (hir_id : Nat) : Hir :=
  db.hirs.getD hir_id Hir.Unknown

/-- `IndexSet::insert`: append at the end unless already present. -/
def insertSet (s : List Nat) (x : Nat) : List Nat :=
  if x ∈ s then s else s ++ [x]

/-- `IndexSet::extend`: insert each element in order. -/
def extendSet (s : List Nat) (xs : List Nat) : List Nat :=
  xs.foldl insertSet s

/-- `HashMap` lookup on an association list. -/
def lookupMap {α : Type} (m : List (Nat × α)) (k : Nat) : Option α :=
  match m with
  | [] => none
  | (k', v) :: rest => if k = k' then some v else lookupMap rest k

/-- `HashMap::insert`: replace the entry if the key is present, else append. -/
def insertMap {α : Type} (m : List (Nat × α)) (k : Nat) (v : α) : List (Nat × α) :=
  match m with
  | [] => [(k, v)]
  | (k', v') :: rest =>
    if k = k' then (k, v) :: rest else (k', v') :: insertMap rest k v

/-- `HashMap::get_mut(k).unwrap()` followed by a mutation: apply `f` to the
entry at `k`; `none` (the Rust panic) if the key is absent. -/
def modifyMap {α : Type} (m : List (Nat × α)) (k : Nat) (f : α → α) :
    Option (List (Nat × α)) :=
  match m with
  | [] => none
  | (k', v) :: rest =>
    if k = k' then some ((k', f v) :: rest)
    else
      match modifyMap rest k f with
      | none => none
      | some rest' => some ((k', v) :: rest')

/-- Lookup with default `[]`, for reading a capture set. -/
def lookupD (m : List (Nat × List Nat)) (k : Nat) : List Nat :=
  (lookupMap m k).getD []

/-- The mutable state of `Optimizer` (`optimizer.rs` lines 15–20) together with
the LIR arena it allocates into.  The read-only `Database` is passed
separately. -/
structure OptState where
  lirs : List Lir
  captures : List (Nat × List Nat)
  environments : List (Nat × List Nat)
  scope_inheritance : List (Nat × Nat)
deriving DecidableEq, Repr

/-- The empty optimizer state `Optimizer::new` starts from. -/
def initState : OptState := ⟨[], [], [], []⟩

/-- `Database::alloc_lir`: append a LIR node, returning its fresh id. -/
def allocLir (st : OptState) (l : Lir) : OptState × Nat :=
  ({ st with lirs := st.lirs ++ [l] }, st.lirs.length)

/-- The path-integer loop of `opt_path` (`optimizer.rs` lines 239–243):
start from `2` and, once per environment position, multiply by two and add
one. -/
def pathLoop : Nat → Nat
  | 0 => 2
  | i + 1 => 2 * pathLoop i + 1

/-- The environment-composition loops shared verbatim by
`compute_function_captures` (`optimizer.rs` lines 121–139) and `opt_main`
(lines 177–195): insert the local definitions in order, then the given capture
set in order, then the local parameters in order. -/
def composeFunctionEnv (db : Database) (scope_id : Nat) (caps : List Nat) :
    List Nat :=
  let env := (db.scope scope_id).local_symbols.foldl
    (fun e s => if (db.symbol s).is_definition then insertSet e s else e) []
  let env := caps.foldl insertSet env
  (db.scope scope_id).local_symbols.foldl
    (fun e s => if (db.symbol s).is_parameter then insertSet e s else e) env

/-- The environment-extension loop of `opt_path` (`optimizer.rs` lines
227–232): walk the scope-inheritance chain, extending the environment with
each parent's environment.  The walk is fueled; any fuel at least the number
of map entries completes every chain an acyclic inheritance map (the only kind
the compiler builds) can produce. -/
def composedEnvAux (st : OptState) : Nat → List Nat → Nat → List Nat
  | 0, env, _ => env
  | fuel + 1, env, current =>
    match lookupMap st.scope_inheritance current with
    | none => env
    | some parent =>
      composedEnvAux st fuel (extendSet env (lookupD st.environments parent)) parent

/-- The full composed environment `opt_path` searches: the scope's own
environment record extended along the inheritance chain. -/
def composedEnv (st : OptState) (scope_id : Nat) (env0 : List Nat) : List Nat :=
  composedEnvAux st st.scope_inheritance.length env0 scope_id

/-- `opt_path` (`optimizer.rs` lines 224–246): find the symbol's position in
the composed environment and allocate `Lir::Path` of the loop-computed path
integer.  `none` models the `expect`/index panics. -/
def opt_path (st : OptState) (scope_id : Nat) (symbol_id : Nat) :
    Option (OptState × Nat) := do
  let env0 ← lookupMap st.environments scope_id
  let environment := composedEnv st scope_id env0
  let index ← environment.findIdx? (fun id => id == symbol_id)
  pure (allocLir st (Lir.Path (pathLoop index)))

/-- `opt_path` over a list of symbols, collecting the allocated path ids in
order (the shape of the `for … { args.push(self.opt_path(…)) }` loops). -/
def opt_path_list (st : OptState) (scope_id : Nat) :
    List Nat → Option (OptState × List Nat)
  | [] => some (st, [])
  | s :: rest => do
    let (st', i) ← opt_path st scope_id s
    let (st'', is) ← opt_path_list st' scope_id rest
    pure (st'', i :: is)

/-! ### Capture analysis (`optimizer.rs` lines 32–165)

`compute_captures_entrypoint` registers an empty capture set for a scope
before traversing its body (the memoization that makes re-entry on recursive
references return immediately), `compute_captures_hir` walks a HIR node, and
the two post-processing steps below are the tails of
`compute_function_captures` and `compute_scope_captures` that run after the
respective recursive `compute_captures_entrypoint` call.  Rust recursion is
fueled: every call consumes one unit, except that the argument-list walker
recurses structurally over its list at constant fuel. -/

/-- The `for`-loops that feed each element of a child-node list through a
traversal step, stopping at the first failure (used for `FunctionCall`
arguments and `List` items). -/
def ccFold (f : OptState → Nat → Option OptState) :
    OptState → List Nat → Option OptState
  | st, [] => some st
  | st, h :: rest =>
    match f st h with
    | none => none
    | some st' => ccFold f st' rest

/-- The `for`-loops that lower each element of a list and collect the
produced LIR ids in order, stopping at the first failure. -/
def idsFold (f : OptState → Nat → Option (OptState × Nat)) :
    OptState → List Nat → Option (OptState × List Nat)
  | st, [] => some (st, [])
  | st, h :: rest =>
    match f st h with
    | none => none
    | some (st', i) =>
      match idsFold f st' rest with
      | none => none
      | some (st'', is) => some (st'', i :: is)

/-- The tail of `compute_function_captures` (`optimizer.rs` lines 110–139)
after the recursive entrypoint call: add the function scope's captures that
are not local to the current scope to the current scope's captures, then
compose and record the function scope's environment.  `none` models the
`get_mut(..).unwrap()` and indexing panics. -/
def function_captures_post (db : Database) (st : OptState)
    (scope_id function_scope_id : Nat) : Option OptState := do
  let fcaps ← lookupMap st.captures function_scope_id
  let new_captures := fcaps.filter (fun id => !(db.scope scope_id).is_local id)
  let caps' ← modifyMap st.captures scope_id (fun c => extendSet c new_captures)
  let st := { st with captures := caps' }
  let fcaps' ← lookupMap st.captures function_scope_id
  let env := composeFunctionEnv db function_scope_id fcaps'
  pure { st with environments := insertMap st.environments function_scope_id env }

/-- The tail of `compute_scope_captures` (`optimizer.rs` lines 145–164) after
the recursive entrypoint call: propagate the nested scope's non-local captures
outward, check that every local of the nested scope is a definition (the
`assert!`, modelled as `none` on failure), record the nested scope's
environment as exactly its local definitions, and record its parent in the
scope-inheritance map. -/
def scope_captures_post (db : Database) (st : OptState)
    (scope_id new_scope_id : Nat) : Option OptState := do
  let ncaps ← lookupMap st.captures new_scope_id
  let new_captures := ncaps.filter (fun id => !(db.scope scope_id).is_local id)
  let caps' ← modifyMap st.captures scope_id (fun c => extendSet c new_captures)
  let st := { st with captures := caps' }
  if (db.scope new_scope_id).local_symbols.all
      (fun s => (db.symbol s).is_definition) then
    let env := (db.scope new_scope_id).local_symbols.foldl insertSet []
    pure { st with
      scope_inheritance := insertMap st.scope_inheritance new_scope_id scope_id,
      environments := insertMap st.environments new_scope_id env }
  else
    none

mutual

/-- `compute_captures_entrypoint` (`optimizer.rs` lines 32–38): return at once
if the scope already has a (possibly still growing) capture set; otherwise
register an empty set first and only then traverse the body. -/
def compute_captures_entrypoint (db : Database) :
    Nat → OptState → Nat → Nat → Option OptState
  | 0, _, _, _ => none
  | fuel + 1, st, scope_id, hir_id =>
    if (lookupMap st.captures scope_id).isSome then
      some st
    else
      let st := { st with captures := insertMap st.captures scope_id [] }
      compute_captures_hir db fuel st scope_id hir_id

termination_by structural fuel _ _ _ => fuel
/-- `compute_captures_hir` (`optimizer.rs` lines 40–80) with
`compute_reference_captures` (lines 82–100) inlined at the `Reference` case,
exactly as the source dispatches. -/
def compute_captures_hir (db : Database) :
    Nat → OptState → Nat → Nat → Option OptState
  | 0, _, _, _ => none
  | fuel + 1, st, scope_id, hir_id =>
    match db.hir hir_id with
    | .Unknown => none
    | .Atom _ => some st
    | .Reference symbol_id =>
      let is_cap := (db.symbol symbol_id).is_capturable
      let is_loc := (db.scope scope_id).is_local symbol_id
      let addStep : Option OptState :=
        if is_cap && !is_loc then do
          let caps' ← modifyMap st.captures scope_id (fun c => insertSet c symbol_id)
          pure { st with captures := caps' }
        else
          some st
      match addStep with
      | none => none
      | some st =>
        match db.symbol symbol_id with
        | .Function function_scope_id f_hir_id => do
          let st ← compute_captures_entrypoint db fuel st function_scope_id f_hir_id
          function_captures_post db st scope_id function_scope_id
        | .Parameter => some st
        | .LetBinding h => compute_captures_hir db fuel st scope_id h
        | .ConstBinding h => compute_captures_hir db fuel st scope_id h
    | .Scope new_scope_id value => do
      let st ← compute_captures_entrypoint db fuel st new_scope_id value
      scope_captures_post db st scope_id new_scope_id
    | .FunctionCall callee args => do
      let st ← compute_captures_hir db fuel st scope_id callee
      ccFold (fun st a => compute_captures_hir db fuel st scope_id a) st args
    | .BinaryOp _ lhs rhs => do
      let st ← compute_captures_hir db fuel st scope_id lhs
      compute_captures_hir db fuel st scope_id rhs
    | .Not value => compute_captures_hir db fuel st scope_id value
    | .If condition then_block else_block => do
      let st ← compute_captures_hir db fuel st scope_id condition
      let st ← compute_captures_hir db fuel st scope_id then_block
      compute_captures_hir db fuel st scope_id else_block
    | .List items =>
      ccFold (fun st a => compute_captures_hir db fuel st scope_id a) st items
    | .ListIndex value _ => compute_captures_hir db fuel st scope_id value

termination_by structural fuel _ _ _ => fuel
end

/-! ### HIR-to-LIR lowering (`optimizer.rs` lines 167–474)

The `opt_*` family.  Each function consumes one unit of fuel per call; the
`for`-loops over lists run through `idsFold` at the current fuel. -/

/-- The iterated-`Rest` allocation loop of `opt_list_index` (`optimizer.rs`
lines 327–329). -/
def restIter (st : OptState) (value : Nat) : Nat → OptState × Nat
  | 0 => (st, value)
  | n + 1 =>
    let (st', v') := restIter st value n
    allocLir st' (Lir.Rest v')

set_option maxHeartbeats 1600000 in
mutual

/-- `opt_hir` (`optimizer.rs` lines 278–315): dispatch on the HIR node,
including the `BinaryOp` handler table. -/
def opt_hir (db : Database) :
    Nat → OptState → Nat → Nat → Option (OptState × Nat)
  | 0, _, _, _ => none
  | fuel + 1, st, scope_id, hir_id =>
    match db.hir hir_id with
    | .Unknown => none
    | .Atom atom => some (allocLir st (Lir.Atom atom))
    | .List items => opt_list db fuel st scope_id items
    | .ListIndex value index => opt_list_index db fuel st scope_id value index
    | .Reference symbol_id => opt_reference db fuel st scope_id symbol_id
    | .Scope new_scope_id value => opt_scope db fuel st scope_id new_scope_id value
    | .FunctionCall callee args => opt_function_call db fuel st scope_id callee args
    | .BinaryOp op lhs rhs =>
      match op with
      | .Add => opt_add db fuel st scope_id lhs rhs
      | .Subtract => opt_subtract db fuel st scope_id lhs rhs
      | .Multiply => opt_multiply db fuel st scope_id lhs rhs
      | .Divide => opt_divide db fuel st scope_id lhs rhs
      | .Remainder => opt_remainder db fuel st scope_id lhs rhs
      | .LessThan => opt_lt db fuel st scope_id lhs rhs
      | .GreaterThan => opt_gt db fuel st scope_id lhs rhs
      | .LessThanEquals => opt_lteq db fuel st scope_id lhs rhs
      | .GreaterThanEquals => opt_gteq db fuel st scope_id lhs rhs
      | .Equals => opt_eq db fuel st scope_id lhs rhs
      | .NotEquals => opt_neq db fuel st scope_id lhs rhs
    | .Not value => opt_not db fuel st scope_id value
    | .If condition then_block else_block =>
      opt_if db fuel st scope_id condition then_block else_block

termination_by structural fuel _ _ _ => fuel
/-- `opt_list` (`optimizer.rs` lines 317–323). -/
def opt_list (db : Database) :
    Nat → OptState → Nat → List Nat → Option (OptState × Nat)
  | 0, _, _, _ => none
  | fuel + 1, st, scope_id, items => do
    let (st, ids) ←
      idsFold (fun st x => opt_hir db fuel st scope_id x) st items
    pure (allocLir st (Lir.List ids))

termination_by structural fuel _ _ _ => fuel
/-- `opt_list_index` (`optimizer.rs` lines 325–331): lower the value, wrap it
in `index` `Rest` nodes (none when the index is not positive, matching
`num_iter::range` from zero), and finish with a `First`. -/
def opt_list_index (db : Database) :
    Nat → OptState → Nat → Nat → Int → Option (OptState × Nat)
  | 0, _, _, _, _ => none
  | fuel + 1, st, scope_id, hir_id, index => do
    let (st, value) ← opt_hir db fuel st scope_id hir_id
    let (st, value) := restIter st value index.toNat
    pure (allocLir st (Lir.First value))

termination_by structural fuel _ _ _ _ => fuel
/-- `opt_reference` (`optimizer.rs` lines 333–358): a function reference
becomes a `Closure` whose capture paths are the paths to the function scope's
local definitions followed by the paths to its capture set; a const binding is
lowered inline; anything else is a bare path. -/
def opt_reference (db : Database) :
    Nat → OptState → Nat → Nat → Option (OptState × Nat)
  | 0, _, _, _ => none
  | fuel + 1, st, scope_id, symbol_id =>
    match db.symbol symbol_id with
    | .Function function_scope_id _ => do
      let (st, body) ← opt_path st scope_id symbol_id
      let defs := (db.scope function_scope_id).local_symbols.filter
        (fun s => (db.symbol s).is_definition)
      let (st, defPaths) ← opt_path_list st scope_id defs
      let fcaps ← lookupMap st.captures function_scope_id
      let (st, capPaths) ← opt_path_list st scope_id fcaps
      pure (allocLir st (Lir.Closure body (defPaths ++ capPaths)))
    | .ConstBinding h => opt_hir db fuel st scope_id h
    | _ => opt_path st scope_id symbol_id

termination_by structural fuel _ _ _ => fuel
/-- `opt_function_call` (`optimizer.rs` lines 360–390): when the callee is a
reference to a known function symbol, push the paths to that function scope's
captures first, take the callee as a path, then append the lowered arguments;
otherwise lower the callee like any value and pass only the lowered
arguments. -/
def opt_function_call (db : Database) :
    Nat → OptState → Nat → Nat → List Nat → Option (OptState × Nat)
  | 0, _, _, _, _ => none
  | fuel + 1, st, scope_id, callee, arg_values =>
    match db.hir callee with
    | .Reference symbol_id =>
      match db.symbol symbol_id with
      | .Function callee_scope_id _ => do
        let ccaps ← lookupMap st.captures callee_scope_id
        let (st, capPaths) ← opt_path_list st scope_id ccaps
        let (st, calleeId) ← opt_path st scope_id symbol_id
        let (st, argIds) ←
          idsFold (fun st x => opt_hir db fuel st scope_id x) st arg_values
        pure (allocLir st (Lir.Run calleeId (capPaths ++ argIds)))
      | _ => do
        let (st, calleeId) ← opt_hir db fuel st scope_id callee
        let (st, argIds) ←
          idsFold (fun st x => opt_hir db fuel st scope_id x) st arg_values
        pure (allocLir st (Lir.Run calleeId argIds))
    | _ => do
      let (st, calleeId) ← opt_hir db fuel st scope_id callee
      let (st, argIds) ←
        idsFold (fun st x => opt_hir db fuel st scope_id x) st arg_values
      pure (allocLir st (Lir.Run calleeId argIds))

termination_by structural fuel _ _ _ _ => fuel
/-- `opt_scope` (`optimizer.rs` lines 214–222): lower the body in the nested
scope, then curry it with the lowered definitions recorded in the nested
scope's environment (each asserted to be a definition). -/
def opt_scope (db : Database) :
    Nat → OptState → Nat → Nat → Nat → Option (OptState × Nat)
  | 0, _, _, _, _ => none
  | fuel + 1, st, parent_scope_id, scope_id, hir_id => do
    let (st, body) ← opt_hir db fuel st scope_id hir_id
    let env ← lookupMap st.environments scope_id
    if env.all (fun s => (db.symbol s).is_definition) then
      let (st, args) ←
        idsFold (fun st x => opt_definition db fuel st parent_scope_id x) st env
      pure (allocLir st (Lir.Curry body args))
    else
      none

termination_by structural fuel _ _ _ _ => fuel
/-- `opt_definition` (`optimizer.rs` lines 248–276): a function definition is
its lowered body, curried with its own local definitions when it has any, and
wrapped as a `FunctionBody`; a let binding is its lowered value; parameters
and const bindings are `unreachable!`. -/
def opt_definition (db : Database) :
    Nat → OptState → Nat → Nat → Option (OptState × Nat)
  | 0, _, _, _ => none
  | fuel + 1, st, scope_id, symbol_id =>
    match db.symbol symbol_id with
    | .Function function_scope_id hir_id => do
      let (st, body) ← opt_hir db fuel st function_scope_id hir_id
      let defs := (db.scope function_scope_id).local_symbols.filter
        (fun s => (db.symbol s).is_definition)
      let (st, defIds) ←
        idsFold (fun st x => opt_definition db fuel st function_scope_id x)
          st defs
      let (st, body) :=
        if defIds.isEmpty then (st, body)
        else allocLir st (Lir.Curry body defIds)
      pure (allocLir st (Lir.FunctionBody body))
    | .Parameter => none
    | .LetBinding h => opt_hir db fuel st scope_id h
    | .ConstBinding _ => none

termination_by structural fuel _ _ _ => fuel
/-- `opt_add` (`optimizer.rs` lines 392–396). -/
def opt_add (db : Database) :
    Nat → OptState → Nat → Nat → Nat → Option (OptState × Nat)
  | 0, _, _, _, _ => none
  | fuel + 1, st, scope_id, lhs, rhs => do
    let (st, l) ← opt_hir db fuel st scope_id lhs
    let (st, r) ← opt_hir db fuel st scope_id rhs
    pure (allocLir st (Lir.Add [l, r]))

termination_by structural fuel _ _ _ _ => fuel
/-- `opt_subtract` (`optimizer.rs` lines 398–402). -/
def opt_subtract (db : Database) :
    Nat → OptState → Nat → Nat → Nat → Option (OptState × Nat)
  | 0, _, _, _, _ => none
  | fuel + 1, st, scope_id, lhs, rhs => do
    let (st, l) ← opt_hir db fuel st scope_id lhs
    let (st, r) ← opt_hir db fuel st scope_id rhs
    pure (allocLir st (Lir.Sub [l, r]))

termination_by structural fuel _ _ _ _ => fuel
/-- `opt_multiply` (`optimizer.rs` lines 404–408). -/
def opt_multiply (db : Database) :
    Nat → OptState → Nat → Nat → Nat → Option (OptState × Nat)
  | 0, _, _, _, _ => none
  | fuel + 1, st, scope_id, lhs, rhs => do
    let (st, l) ← opt_hir db fuel st scope_id lhs
    let (st, r) ← opt_hir db fuel st scope_id rhs
    pure (allocLir st (Lir.Mul [l, r]))

termination_by structural fuel _ _ _ _ => fuel
/-- `opt_divide` (`optimizer.rs` lines 410–414). -/
def opt_divide (db : Database) :
    Nat → OptState → Nat → Nat → Nat → Option (OptState × Nat)
  | 0, _, _, _, _ => none
  | fuel + 1, st, scope_id, lhs, rhs => do
    let (st, l) ← opt_hir db fuel st scope_id lhs
    let (st, r) ← opt_hir db fuel st scope_id rhs
    pure (allocLir st (Lir.Div l r))

termination_by structural fuel _ _ _ _ => fuel
/-- `opt_remainder` (`optimizer.rs` lines 416–421): `Rest(Divmod(lhs, rhs))`. -/
def opt_remainder (db : Database) :
    Nat → OptState → Nat → Nat → Nat → Option (OptState × Nat)
  | 0, _, _, _, _ => none
  | fuel + 1, st, scope_id, lhs, rhs => do
    let (st, l) ← opt_hir db fuel st scope_id lhs
    let (st, r) ← opt_hir db fuel st scope_id rhs
    let (st, divmod) := allocLir st (Lir.Divmod l r)
    pure (allocLir st (Lir.Rest divmod))

termination_by structural fuel _ _ _ _ => fuel
/-- `opt_lt` (`optimizer.rs` lines 423–425): `opt_gt` with swapped operands. -/
def opt_lt (db : Database) :
    Nat → OptState → Nat → Nat → Nat → Option (OptState × Nat)
  | 0, _, _, _, _ => none
  | fuel + 1, st, scope_id, lhs, rhs => opt_gt db fuel st scope_id rhs lhs

termination_by structural fuel _ _ _ _ => fuel
/-- `opt_gt` (`optimizer.rs` lines 427–431). -/
def opt_gt (db : Database) :
    Nat → OptState → Nat → Nat → Nat → Option (OptState × Nat)
  | 0, _, _, _, _ => none
  | fuel + 1, st, scope_id, lhs, rhs => do
    let (st, l) ← opt_hir db fuel st scope_id lhs
    let (st, r) ← opt_hir db fuel st scope_id rhs
    pure (allocLir st (Lir.Gt l r))

termination_by structural fuel _ _ _ _ => fuel
/-- `opt_lteq` (`optimizer.rs` lines 433–436): `Not` of `opt_gt` on the
operands in their original order. -/
def opt_lteq (db : Database) :
    Nat → OptState → Nat → Nat → Nat → Option (OptState × Nat)
  | 0, _, _, _, _ => none
  | fuel + 1, st, scope_id, lhs, rhs => do
    let (st, gt) ← opt_gt db fuel st scope_id lhs rhs
    pure (allocLir st (Lir.Not gt))

termination_by structural fuel _ _ _ _ => fuel
/-- `opt_gteq` (`optimizer.rs` lines 438–444): lower both operands once, then
`Any([Eq, Gt])` over the shared operand ids. -/
def opt_gteq (db : Database) :
    Nat → OptState → Nat → Nat → Nat → Option (OptState × Nat)
  | 0, _, _, _, _ => none
  | fuel + 1, st, scope_id, lhs, rhs => do
    let (st, l) ← opt_hir db fuel st scope_id lhs
    let (st, r) ← opt_hir db fuel st scope_id rhs
    let (st, eq) := allocLir st (Lir.Eq l r)
    let (st, gt) := allocLir st (Lir.Gt l r)
    pure (allocLir st (Lir.Any [eq, gt]))

termination_by structural fuel _ _ _ _ => fuel
/-- `opt_eq` (`optimizer.rs` lines 446–450). -/
def opt_eq (db : Database) :
    Nat → OptState → Nat → Nat → Nat → Option (OptState × Nat)
  | 0, _, _, _, _ => none
  | fuel + 1, st, scope_id, lhs, rhs => do
    let (st, l) ← opt_hir db fuel st scope_id lhs
    let (st, r) ← opt_hir db fuel st scope_id rhs
    pure (allocLir st (Lir.Eq l r))

termination_by structural fuel _ _ _ _ => fuel
/-- `opt_neq` (`optimizer.rs` lines 452–455): `Not` of `opt_eq`. -/
def opt_neq (db : Database) :
    Nat → OptState → Nat → Nat → Nat → Option (OptState × Nat)
  | 0, _, _, _, _ => none
  | fuel + 1, st, scope_id, lhs, rhs => do
    let (st, eq) ← opt_eq db fuel st scope_id lhs rhs
    pure (allocLir st (Lir.Not eq))

termination_by structural fuel _ _ _ _ => fuel
/-- `opt_not` (`optimizer.rs` lines 457–460). -/
def opt_not (db : Database) :
    Nat → OptState → Nat → Nat → Option (OptState × Nat)
  | 0, _, _, _ => none
  | fuel + 1, st, scope_id, value => do
    let (st, v) ← opt_hir db fuel st scope_id value
    pure (allocLir st (Lir.Not v))

termination_by structural fuel _ _ _ => fuel
/-- `opt_if` (`optimizer.rs` lines 462–474). -/
def opt_if (db : Database) :
    Nat → OptState → Nat → Nat → Nat → Nat → Option (OptState × Nat)
  | 0, _, _, _, _, _ => none
  | fuel + 1, st, scope_id, condition, then_block, else_block => do
    let (st, c) ← opt_hir db fuel st scope_id condition
    let (st, t) ← opt_hir db fuel st scope_id then_block
    let (st, e) ← opt_hir db fuel st scope_id else_block
    pure (allocLir st (Lir.If c t e))

termination_by structural fuel _ _ _ _ _ => fuel
end

/-- `opt_main` (`optimizer.rs` lines 167–212): run capture analysis from the
main function's scope, record its composed environment, lower its body, then
curry the body with the lowered local definitions followed by the lowered
captures. -/
def opt_main (db : Database) (fuel : Nat) (st : OptState) (main : Nat) :
    Option (OptState × Nat) :=
  match db.symbol main with
  | .Function scope_id hir_id => do
    let st ← compute_captures_entrypoint db fuel st scope_id hir_id
    let caps ← lookupMap st.captures scope_id
    let env := composeFunctionEnv db scope_id caps
    let st := { st with environments := insertMap st.environments scope_id env }
    let (st, body) ← opt_hir db fuel st scope_id hir_id
    let defs := (db.scope scope_id).local_symbols.filter
      (fun s => (db.symbol s).is_definition)
    let (st, defArgs) ←
      idsFold (fun st x => opt_definition db fuel st scope_id x) st defs
    let caps' ← lookupMap st.captures scope_id
    let (st, capArgs) ←
      idsFold (fun st x => opt_definition db fuel st scope_id x) st caps'
    pure (allocLir st (Lir.Curry body (defArgs ++ capArgs)))
  | _ => none

/-! ### Well-formedness of the database

Lowering builds the arenas monotonically: every child node is allocated
before its parent, referenced ids are in range, and the value HIR of a
let/const binding is allocated before any reference to it (spec §3
"Invariants", §9 "Graphs, not trees").  `hirNodeWF` states this per node;
`dbWF` quantifies it over the HIR arena.  These are the side conditions under
which the fueled capture analysis is shown to succeed. -/

/-- Well-formedness of the HIR node at index `i`. -/
def hirNodeWF (db : Database) (i : Nat) : Bool :=
  match db.hir i with
  | .Unknown => false
  | .Atom _ => true
  | .Reference symbol_id =>
    decide (symbol_id < db.symbols.length) &&
    (match db.symbol symbol_id with
     | .Function fscope fhir =>
       decide (fscope < db.scopes.length) && decide (fhir < db.hirs.length)
     | .Parameter => true
     | .LetBinding h => decide (h < i)
     | .ConstBinding h => decide (h < i))
  | .Scope new_scope_id value =>
    decide (new_scope_id < db.scopes.length) && decide (value < i) &&
    (db.scope new_scope_id).local_symbols.all
      (fun s => (db.symbol s).is_definition)
  | .FunctionCall callee args =>
    decide (callee < i) && args.all (fun a => decide (a < i))
  | .BinaryOp _ lhs rhs => decide (lhs < i) && decide (rhs < i)
  | .Not value => decide (value < i)
  | .If condition then_block else_block =>
    decide (condition < i) && decide (then_block < i) && decide (else_block < i)
  | .List items => items.all (fun a => decide (a < i))
  | .ListIndex value _ => decide (value < i)

/-- Well-formedness of the whole HIR arena. -/
def dbWF (db : Database) : Bool :=
  (List.range db.hirs.length).all (fun i => hirNodeWF db i)

/-- Whether a scope already has a (possibly still growing) capture set in the
memo table. -/
def registeredScope (st : OptState) (scope_id : Nat) : Bool :=
  (lookupMap st.captures scope_id).isSome

/-- The number of scopes not yet registered in the memo table: the part of
the termination measure that drops whenever `compute_captures_entrypoint`
first enters a scope. -/
def unreg (db : Database) (st : OptState) : Nat :=
  (List.range db.scopes.length).countP
    (fun s => !(registeredScope st s))

/-- `st ≼ st'` on capture tables: every capture set present in `st` is still
present in `st'` and has only grown at the end.  Every step of the analysis
preserves this. -/
def capturesLe (st st' : OptState) : Prop :=
  ∀ s v, lookupMap st.captures s = some v →
    ∃ v', lookupMap st'.captures s = some v' ∧ v <+: v'

/-- `RefIn db h sym`: traversing `compute_captures_hir` from HIR node `h`
without leaving the current scope reaches a `Reference(sym)` node — children
of structural nodes stay in the scope, and a reference to a let/const binding
recurses into the binding's value in the same scope.  (Subtrees under
`Hir.Scope` and function bodies switch scopes and are excluded.)  This is the
"used inside the scope" relation of the capture-closure claim. -/
inductive RefIn (db : Database) : Nat → Nat → Prop where
  | here (h sym : Nat) : db.hir h = .Reference sym → RefIn db h sym
  | letBody (h s hv sym : Nat) :
      db.hir h = .Reference s → db.symbol s = .LetBinding hv →
      RefIn db hv sym → RefIn db h sym
  | constBody (h s hv sym : Nat) :
      db.hir h = .Reference s → db.symbol s = .ConstBinding hv →
      RefIn db hv sym → RefIn db h sym
  | callCallee (h c sym : Nat) (args : List Nat) :
      db.hir h = .FunctionCall c args → RefIn db c sym → RefIn db h sym
  | callArg (h c a sym : Nat) (args : List Nat) :
      db.hir h = .FunctionCall c args → a ∈ args →
      RefIn db a sym → RefIn db h sym
  | binLhs (h l r sym : Nat) (op : BinaryOp) :
      db.hir h = .BinaryOp op l r → RefIn db l sym → RefIn db h sym
  | binRhs (h l r sym : Nat) (op : BinaryOp) :
      db.hir h = .BinaryOp op l r → RefIn db r sym → RefIn db h sym
  | notValue (h v sym : Nat) :
      db.hir h = .Not v → RefIn db v sym → RefIn db h sym
  | ifCond (h c t e sym : Nat) :
      db.hir h = .If c t e → RefIn db c sym → RefIn db h sym
  | ifThen (h c t e sym : Nat) :
      db.hir h = .If c t e → RefIn db t sym → RefIn db h sym
  | ifElse (h c t e sym : Nat) :
      db.hir h = .If c t e → RefIn db e sym → RefIn db h sym
  | listItem (h a sym : Nat) (items : List Nat) :
      db.hir h = .List items → a ∈ items →
      RefIn db a sym → RefIn db h sym
  | listIndexValue (h v sym : Nat) (idx : Int) :
      db.hir h = .ListIndex v idx → RefIn db v sym → RefIn db h sym

/-- A chain of `k` `Rest` nodes in a LIR arena from `top` down to `base`:
the shape `Rest^k(base)` that list indexing lowers to. -/
def restChain (lirs : List Lir) (base : Nat) : Nat → Nat → Prop
  | 0, top => top = base
  | k + 1, top => ∃ prev, lirs.get? top = some (Lir.Rest prev) ∧
      restChain lirs base k prev

/-- Discriminator for `Lir.Any`, used to state that an emitted node is not of
the `Any` shape. -/
def Lir.isAny : Lir → Bool
  | .Any _ => true
  | _ => false

/-! ### The expression grammar (`crates/rue-parser/src/grammar.rs`)

The expression core of the parser: the Pratt loop `expr_binding_power`, the
atom alternatives, the postfix-call loop, the binary-operator loop, and the
productions they reach (`list_expr`, `if_expr`, `block`).  The token-kind and
node-kind enum is `syntax_kind.rs` restricted to the kinds this fragment
touches.  The CST is built directly as a tree: the source's
checkpoint/`start_at` retro-wrapping of an already-built prefix corresponds
to rebinding the left-hand tree in the loops. -/

/-- The `SyntaxKind`s used by the expression grammar (from `syntax_kind.rs`). -/
inductive SyntaxKind where
  | Eof
  | Ident
  | Int
  | String
  | OpenParen
  | CloseParen
  | OpenBracket
  | CloseBracket
  | OpenBrace
  | CloseBrace
  | Fun
  | If
  | Else
  | Nil
  | True
  | False
  | Comma
  | Plus
  | Minus
  | Star
  | Slash
  | Percent
  | Not
  | LessThan
  | GreaterThan
  | LessThanEquals
  | GreaterThanEquals
  | Equals
  | NotEquals
  | Block
  | LiteralExpr
  | ListExpr
  | IfExpr
  | PrefixExpr
  | BinaryExpr
  | FunctionCall
  | FunctionCallArgs
deriving DecidableEq, Repr

/-- The parser crate's binary-operator enum as used by `grammar.rs`. -/
inductive AstBinaryOp where
  | Add
  | Sub
  | Mul
  | Div
  | Rem
  | Lt
  | Gt
  | LtEq
  | GtEq
  | Eq
  | NotEq
deriving DecidableEq, Repr

/-- `binding_power` (`grammar.rs` lines 59–70). -/
def binding_power : AstBinaryOp → Nat × Nat
  | .Lt | .Gt | .LtEq | .GtEq | .Eq | .NotEq => (1, 2)
  | .Add | .Sub => (3, 4)
  | .Mul | .Div | .Rem => (5, 6)

/-- `EXPR_RECOVERY_SET` (`grammar.rs` line 72). -/
def exprRecoverySet : List SyntaxKind := [.OpenBrace, .CloseBrace]

/-- A concrete syntax tree node.  `missing` marks a failed `expect`;
`err` is the error node produced by recovery, carrying the skipped tokens. -/
inductive Cst where
  | leaf (kind : SyntaxKind)
  | node (kind : SyntaxKind) (children : List Cst)
  | missing
  | err (skipped : List SyntaxKind)

/-- Modelled from the spec: the `Parser` state of the parser crate
(`parser.rs` is not among the provided sources).  Per spec §4.2 the parser
walks a token stream (trivia already skipped), records error events, and on
error skips tokens up to a recovery set.  Only the token kinds matter to the
grammar, so tokens are bare `SyntaxKind`s. -/
structure ParseState where
  tokens : List SyntaxKind
  pos : Nat
  errors : Nat
deriving DecidableEq, Repr

/-- The token kind at the current position, if any. -/
def currKind (p : ParseState) : Option SyntaxKind :=
  p.tokens.get? p.pos

/-- Modelled from the spec: `Parser::at`. -/
def atKind (p : ParseState) (k : SyntaxKind) : Bool :=
  currKind p == some k

/-- Modelled from the spec: `Parser::bump` advances past the current token. -/
def bumpTok (p : ParseState) : ParseState :=
  { p with pos := p.pos + 1 }

/-- Modelled from the spec: `Parser::expect` consumes the expected kind or
records an error and leaves a `missing` marker. -/
def expectTok (p : ParseState) (k : SyntaxKind) : ParseState × Cst :=
  if atKind p k then (bumpTok p, Cst.leaf k)
  else ({ p with errors := p.errors + 1 }, Cst.missing)

/-- Modelled from the spec: the token-skipping loop of `Parser::error` —
consume tokens until one in the recovery set (or the end of input), returning
the skipped kinds. -/
def skipUntil (tokens recovery : List SyntaxKind) : Nat → Nat → Nat × List SyntaxKind
  | pos, 0 => (pos, [])
  | pos, fuel + 1 =>
    match tokens.get? pos with
    | none => (pos, [])
    | some k =>
      if k ∈ recovery then (pos, [])
      else
        let (pos', sk) := skipUntil tokens recovery (pos + 1) fuel
        (pos', k :: sk)

/-- Modelled from the spec: `Parser::error` — record an error event, then
recover by skipping to the recovery set. -/
def perror (p : ParseState) (recovery : List SyntaxKind) : ParseState × Cst :=
  let (pos', skipped) :=
    skipUntil p.tokens recovery p.pos (p.tokens.length - p.pos)
  ({ p with pos := pos', errors := p.errors + 1 }, Cst.err skipped)

/-- The operator-token dispatch chain of the binary loop (`grammar.rs` lines
123–145). -/
def opOfKind : Option SyntaxKind → Option AstBinaryOp
  | some .Plus => some .Add
  | some .Minus => some .Sub
  | some .Star => some .Mul
  | some .Slash => some .Div
  | some .Percent => some .Rem
  | some .LessThan => some .Lt
  | some .GreaterThan => some .Gt
  | some .LessThanEquals => some .LtEq
  | some .GreaterThanEquals => some .GtEq
  | some .NotEquals => some .NotEq
  | _ => none

mutual

/-- `expr_binding_power` (`grammar.rs` lines 78–159).  A leading `!` builds a
`PrefixExpr` over an operand parsed at binding power 255 and returns at once
— the postfix-call and binary loops are never entered for it.  Otherwise an
atom is parsed; an atom-position error also returns at once (the source
`return p.error(..)`); a successful atom runs the postfix-call loop and then
the binary loop. -/
def expr_binding_power : Nat → ParseState → Nat → Option (ParseState × Cst)
  | 0, _, _ => none
  | fuel + 1, p, minimum_binding_power =>
    if atKind p .Not then
      match expr_binding_power fuel (bumpTok p) 255 with
      | none => none
      | some (p', inner) =>
        some (p', Cst.node .PrefixExpr [Cst.leaf .Not, inner])
    else
      match exprAtom fuel p with
      | none => none
      | some (p1, Sum.inl e) => some (p1, e)
      | some (p1, Sum.inr lhs) =>
        match callLoop fuel p1 lhs with
        | none => none
        | some (p2, lhs2) => binLoop fuel p2 lhs2 minimum_binding_power

termination_by structural fuel _ _ => fuel
/-- The atom alternatives of `expr_binding_power` (`grammar.rs` lines
87–105): a literal token, a list, or an `if`; anything else is an error whose
node is returned without entering the loops (`Sum.inl`). -/
def exprAtom : Nat → ParseState → Option (ParseState × (Cst ⊕ Cst))
  | 0, _ => none
  | fuel + 1, p =>
    if atKind p .Int || atKind p .String || atKind p .Ident ||
        atKind p .True || atKind p .False || atKind p .Nil then
      match currKind p with
      | some k => some (bumpTok p, Sum.inr (Cst.node .LiteralExpr [Cst.leaf k]))
      | none => none
    else if atKind p .OpenBracket then
      match list_expr fuel p with
      | none => none
      | some (p', t) => some (p', Sum.inr t)
    else if atKind p .If then
      match if_expr fuel p with
      | none => none
      | some (p', t) => some (p', Sum.inr t)
    else
      let (p', e) := perror p exprRecoverySet
      some (p', Sum.inl e)

termination_by structural fuel _ => fuel
/-- The postfix function-call loop (`grammar.rs` lines 107–120): while at
`(`, wrap the accumulated expression in a `FunctionCall` node with the
argument list. -/
def callLoop : Nat → ParseState → Cst → Option (ParseState × Cst)
  | 0, _, _ => none
  | fuel + 1, p, lhs =>
    if atKind p .OpenParen then
      match callArgs fuel (bumpTok p) [] with
      | none => none
      | some (p1, argChildren) =>
        let (p2, closer) := expectTok p1 .CloseParen
        let argsNode := Cst.node .FunctionCallArgs
          ([Cst.leaf .OpenParen] ++ argChildren ++ [closer])
        callLoop fuel p2 (Cst.node .FunctionCall [lhs, argsNode])
    else
      some (p, lhs)

termination_by structural fuel _ _ => fuel
/-- The argument loop inside a call (`grammar.rs` lines 111–116): while not
at `)`, parse an expression, then continue only past a comma. -/
def callArgs : Nat → ParseState → List Cst → Option (ParseState × List Cst)
  | 0, _, _ => none
  | fuel + 1, p, acc =>
    if atKind p .CloseParen then some (p, acc)
    else
      match expr_binding_power fuel p 0 with
      | none => none
      | some (p1, e) =>
        if atKind p1 .Comma then
          callArgs fuel (bumpTok p1) (acc ++ [e, Cst.leaf .Comma])
        else
          some (p1, acc ++ [e])

termination_by structural fuel _ _ => fuel
/-- The binary-operator loop (`grammar.rs` lines 122–158): read an operator,
stop when its left binding power is below the minimum, otherwise wrap the
accumulated expression in a `BinaryExpr` with the right-hand side parsed at
the operator's right binding power. -/
def binLoop : Nat → ParseState → Cst → Nat → Option (ParseState × Cst)
  | 0, _, _, _ => none
  | fuel + 1, p, lhs, minimum_binding_power =>
    match opOfKind (currKind p) with
    | none => some (p, lhs)
    | some op =>
      let (left_binding_power, right_binding_power) := binding_power op
      if left_binding_power < minimum_binding_power then
        some (p, lhs)
      else
        let opK := (currKind p).getD .Eof
        match expr_binding_power fuel (bumpTok p) right_binding_power with
        | none => none
        | some (p1, rhs) =>
          binLoop fuel p1 (Cst.node .BinaryExpr [lhs, Cst.leaf opK, rhs])
            minimum_binding_power

termination_by structural fuel _ _ _ => fuel
/-- `list_expr` (`grammar.rs` lines 161–172). -/
def list_expr : Nat → ParseState → Option (ParseState × Cst)
  | 0, _ => none
  | fuel + 1, p =>
    if atKind p .OpenBracket then
      match listItems fuel (bumpTok p) [] with
      | none => none
      | some (p1, items) =>
        let (p2, closer) := expectTok p1 .CloseBracket
        some (p2, Cst.node .ListExpr
          ([Cst.leaf .OpenBracket] ++ items ++ [closer]))
    else
      let (p', _) := expectTok p .OpenBracket
      match listItems fuel p' [] with
      | none => none
      | some (p1, items) =>
        let (p2, closer) := expectTok p1 .CloseBracket
        some (p2, Cst.node .ListExpr (Cst.missing :: items ++ [closer]))

termination_by structural fuel _ => fuel
/-- The element loop of `list_expr` (`grammar.rs` lines 164–169). -/
def listItems : Nat → ParseState → List Cst → Option (ParseState × List Cst)
  | 0, _, _ => none
  | fuel + 1, p, acc =>
    if atKind p .CloseBracket then some (p, acc)
    else
      match expr_binding_power fuel p 0 with
      | none => none
      | some (p1, e) =>
        if atKind p1 .Comma then
          listItems fuel (bumpTok p1) (acc ++ [e, Cst.leaf .Comma])
        else
          some (p1, acc ++ [e])

termination_by structural fuel _ _ => fuel
/-- `if_expr` (`grammar.rs` lines 174–182). -/
def if_expr : Nat → ParseState → Option (ParseState × Cst)
  | 0, _ => none
  | fuel + 1, p =>
    let (p1, ifTok) := expectTok p .If
    match expr_binding_power fuel p1 0 with
    | none => none
    | some (p2, condition) =>
      match blockProd fuel p2 with
      | none => none
      | some (p3, thenB) =>
        let (p4, elseTok) := expectTok p3 .Else
        match blockProd fuel p4 with
        | none => none
        | some (p5, elseB) =>
          some (p5, Cst.node .IfExpr [ifTok, condition, thenB, elseTok, elseB])

termination_by structural fuel _ => fuel
/-- `block` (`grammar.rs` lines 51–57). -/
def blockProd : Nat → ParseState → Option (ParseState × Cst)
  | 0, _ => none
  | fuel + 1, p =>
    let (p1, opener) := expectTok p .OpenBrace
    match expr_binding_power fuel p1 0 with
    | none => none
    | some (p2, e) =>
      let (p3, closer) := expectTok p2 .CloseBrace
      some (p3, Cst.node .Block [opener, e, closer])

termination_by structural fuel _ => fuel
end

/-- `expr` (`grammar.rs` lines 74–76): the Pratt loop at minimum binding
power `0`. -/
def exprProd (fuel : Nat) (p : ParseState) : Option (ParseState × Cst) :=
  expr_binding_power fuel p 0

/-- Whether a tree's root is a `PrefixExpr` node. -/
def rootIsPrefixExpr : Cst → Bool
  | .node .PrefixExpr _ => true
  | _ => false

mutual

/-- No `FunctionCall` node has a `PrefixExpr` as its callee (first child) and
no `BinaryExpr` has one as its left operand (first child), anywhere in the
tree. -/
def goodCst : Cst → Bool
  | .leaf _ => true
  | .missing => true
  | .err _ => true
  | .node k children =>
    ((k != SyntaxKind.FunctionCall && k != SyntaxKind.BinaryExpr) ||
      (match children with
       | c :: _ => !(rootIsPrefixExpr c)
       | [] => true)) &&
    goodCstList children

/-- `goodCst` over a list of children. -/
def goodCstList : List Cst → Bool
  | [] => true
  | c :: cs => goodCst c && goodCstList cs

end

/-! ### Concrete example databases used by counterexamples and witnesses -/

/-- A program whose only interesting node is `a <= b` over two atoms:
HIR node 2 is `BinaryOp(LessThanEquals, 0, 1)`. -/
def exDbLteq : Database :=
  { symbols := [],
    scopes := [⟨[], []⟩],
    hirs := [Hir.Atom [1], Hir.Atom [2],
             Hir.BinaryOp BinaryOp.LessThanEquals 0 1] }

/-- The mutual-recursion program refuting the capture-closure invariant:

```
fun main() -> Int { f(1) }
fun f(x: Int) -> Int { g(x) + h(x) }
fun g(y: Int) -> Int { f(y) }
fun h(w: Int) -> Int { w }
```

Symbols: `0 = main` (scope 1, body 13), `1 = f` (scope 2, body 10),
`2 = g` (scope 3, body 3), `3 = h` (scope 4, body 0), `4/5/6 = x/y/w`.
Scope 0 is the root holding the four functions; each function scope holds
its parameter and records the symbols used inside it. -/
def exDbMutual : Database :=
  { symbols := [
      Symbol.Function 1 13, Symbol.Function 2 10, Symbol.Function 3 3,
      Symbol.Function 4 0, Symbol.Parameter, Symbol.Parameter,
      Symbol.Parameter],
    scopes := [
      ⟨[0, 1, 2, 3], []⟩, ⟨[], [1]⟩, ⟨[4], [2, 3, 4]⟩,
      ⟨[5], [1, 5]⟩, ⟨[6], [6]⟩],
    hirs := [
      Hir.Reference 6, Hir.Reference 1, Hir.Reference 5,
      Hir.FunctionCall 1 [2], Hir.Reference 2, Hir.Reference 4,
      Hir.FunctionCall 4 [5], Hir.Reference 3, Hir.Reference 4,
      Hir.FunctionCall 7 [8], Hir.BinaryOp BinaryOp.Add 6 9,
      Hir.Reference 1, Hir.Atom [1], Hir.FunctionCall 11 [12]] }

/-- The capture-analysis result on `exDbMutual`, starting (as `opt_main`
does) from the main function's scope. -/
def exMutualRun : OptState :=
  (compute_captures_entrypoint exDbMutual 60 initState 1 13).getD initState

/-- The capture and environment tables that capture analysis computes on
`exDbMutual` (checked against `exMutualRun` below), written out literally for
use as a lowering start state. -/
def exStMutual : OptState :=
  { lirs := [],
    captures := [(1, [1, 2, 3]), (2, [2, 1, 3]), (3, [1, 2]), (4, [])],
    environments := [(2, [2, 1, 3, 4]), (3, [1, 2, 5]), (4, [6])],
    scope_inheritance := [] }

/-- The two-function program

```
fun add(a: Int, b: Int) -> Int { a + b }
fun main() -> Int { add(2, 3) }
```

Symbols: `0 = main` (scope 1, body 6), `1 = add` (scope 2, body 2),
`2/3 = a/b`. -/
def exDbAdd : Database :=
  { symbols := [
      Symbol.Function 1 6, Symbol.Function 2 2,
      Symbol.Parameter, Symbol.Parameter],
    scopes := [⟨[0, 1], []⟩, ⟨[], [1]⟩, ⟨[2, 3], [2, 3]⟩],
    hirs := [
      Hir.Reference 2, Hir.Reference 3, Hir.BinaryOp BinaryOp.Add 0 1,
      Hir.Reference 1, Hir.Atom [2], Hir.Atom [3],
      Hir.FunctionCall 3 [4, 5]] }

/-- A hand-made optimizer state over `exDbAdd` after capture analysis and
main-environment composition: captures of main's scope are `[1]`, of `add`'s
scope `[]`; main's composed environment is `[1]`, `add`'s is `[2, 3]`. -/
def exStAdd : OptState :=
  { lirs := [],
    captures := [(1, [1]), (2, [])],
    environments := [(1, [1]), (2, [2, 3])],
    scope_inheritance := [] }

/-! ### The command-line driver (`crates/rue-cli/src/main.rs`)

`main` reads the source, parses, and on parse errors prints one line per error
and `return`s; otherwise it compiles, and on lowering errors prints one line
per error and `return`s; otherwise it prints the compiled output.  A plain
`return` from Rust's `main` terminates the process with exit status `0`.
Errors are modelled as opaque `Nat` tokens; the `line:column` rendering is
irrelevant to the checked claim. -/

/-- Observable outcome of one driver run: the errors reported to stderr, in
order; whether the compile/output stage ran; and the process exit status. -/
structure CliOutcome where
  reported : List Nat
  compiled : Bool
  exitCode : Nat
deriving DecidableEq, Repr

/-- The error-handling control flow of `main` (`main.rs` lines 17–57): report
parse errors and stop, else report lowering errors and stop, else emit output.
Every branch falls off the end of `main` normally, so the exit status is `0`
in all three cases. -/
def cli_main (parseErrors : List Nat) (lowerErrors : List Nat) : CliOutcome :=
  if ¬parseErrors.isEmpty then
    { reported := parseErrors, compiled := false, exitCode := 0 }
  else if ¬lowerErrors.isEmpty then
    { reported := lowerErrors, compiled := false, exitCode := 0 }
  else
    { reported := [], compiled := true, exitCode := 0 }

/-- A database giving a function symbol whose scope has both a local
definition and a capture: symbol `1` is a function over scope `2`, whose
locals are a let binding (`2`) and a parameter (`3`), and whose capture set
will be `[4]`. -/
def exDbClosure : Database :=
  { symbols := [Symbol.Parameter, Symbol.Function 2 0, Symbol.LetBinding 0,
                Symbol.Parameter, Symbol.Parameter],
    scopes := [⟨[], []⟩, ⟨[1], []⟩, ⟨[2, 3], []⟩],
    hirs := [Hir.Atom [7]] }

/-- A hand-made optimizer state over `exDbClosure`: the reference site's
scope `1` has composed environment `[1, 2, 4]` and the function scope `2`
has captures `[4]`. -/
def exStClosure : OptState :=
  { lirs := [],
    captures := [(2, [4])],
    environments := [(1, [1, 2, 4])],
    scope_inheritance := [] }

/-! ## Theorems

First the general-purpose lemmas about the embedded containers and loop
helpers, then one theorem (plus witness or counterexample) per checked
claim. -/

theorem insertSet_of_not_mem {s : List Nat} {x : Nat} (h : x ∉ s) :
    insertSet s x = s ++ [x] := by
  simp [insertSet, h]

theorem foldl_insertSet_append :
    ∀ (l s : List Nat), l.Nodup → (∀ x ∈ l, x ∉ s) →
      l.foldl insertSet s = s ++ l
  | [], s, _, _ => by simp
  | x :: t, s, hnd, hd => by
    have hx : x ∉ s := hd x (by simp)
    have hnd' : t.Nodup := (List.nodup_cons.mp hnd).2
    have hxt : x ∉ t := (List.nodup_cons.mp hnd).1
    have hd' : ∀ y ∈ t, y ∉ s ++ [x] := by
      intro y hy
      simp only [List.mem_append, List.mem_singleton]
      rintro (h1 | rfl)
      · exact hd y (by simp [hy]) h1
      · exact hxt hy
    calc (x :: t).foldl insertSet s
        = t.foldl insertSet (insertSet s x) := by simp [List.foldl_cons]
      _ = t.foldl insertSet (s ++ [x]) := by rw [insertSet_of_not_mem hx]
      _ = (s ++ [x]) ++ t := foldl_insertSet_append t (s ++ [x]) hnd' hd'
      _ = s ++ x :: t := by simp

theorem foldl_guard_filter (p : Nat → Bool) (f : List Nat → Nat → List Nat) :
    ∀ (l : List Nat) (e : List Nat),
      l.foldl (fun e s => if p s then f e s else e) e = (l.filter p).foldl f e
  | [], _ => rfl
  | x :: t, e => by
    by_cases hx : p x = true
    · simp only [List.foldl_cons, hx, if_true, List.filter_cons, hx]
      exact foldl_guard_filter p f t (f e x)
    · simp only [List.foldl_cons, hx, if_false, List.filter_cons]
      rw [if_neg (by simp [hx])]
      exact foldl_guard_filter p f t e

theorem symbol_not_def_and_param (s : Symbol) :
    s.is_definition = true → s.is_parameter = true → False := by
  cases s <;> simp [Symbol.is_definition, Symbol.is_parameter]

/-- C1 helper: the three composition loops produce exactly
definitions ++ captures ++ parameters. -/
theorem composeFunctionEnv_eq (db : Database) (scope_id : Nat)
    (caps : List Nat)
    (hnd : (db.scope scope_id).local_symbols.Nodup)
    (hnc : caps.Nodup)
    (hdisj : ∀ x ∈ caps, x ∉ (db.scope scope_id).local_symbols) :
    composeFunctionEnv db scope_id caps =
      (db.scope scope_id).local_symbols.filter
          (fun s => (db.symbol s).is_definition)
        ++ caps
        ++ (db.scope scope_id).local_symbols.filter
          (fun s => (db.symbol s).is_parameter) := by
  set locals := (db.scope scope_id).local_symbols with hlocals
  set defsL := locals.filter (fun s => (db.symbol s).is_definition) with hdefs
  set paramsL := locals.filter (fun s => (db.symbol s).is_parameter) with hparams
  have hdefs_sub : ∀ x ∈ defsL, x ∈ locals := by
    intro x hx; exact (List.mem_filter.mp hx).1
  have hparams_sub : ∀ x ∈ paramsL, x ∈ locals := by
    intro x hx; exact (List.mem_filter.mp hx).1
  have hdefs_nd : defsL.Nodup := hnd.filter _
  have hparams_nd : paramsL.Nodup := hnd.filter _
  unfold composeFunctionEnv
  rw [foldl_guard_filter, foldl_guard_filter]
  rw [← hlocals, ← hdefs, ← hparams]
  have step1 : defsL.foldl insertSet [] = defsL := by
    have := foldl_insertSet_append defsL [] hdefs_nd (by intro x _; simp)
    simpa using this
  rw [step1]
  have step2 : caps.foldl insertSet defsL = defsL ++ caps := by
    refine foldl_insertSet_append caps defsL hnc ?_
    intro x hx hmem
    exact hdisj x hx (hdefs_sub x hmem)
  rw [step2]
  have step3 : paramsL.foldl insertSet (defsL ++ caps)
      = (defsL ++ caps) ++ paramsL := by
    refine foldl_insertSet_append paramsL (defsL ++ caps) hparams_nd ?_
    intro x hx
    have hxp : (db.symbol x).is_parameter = true := by
      simpa using (List.mem_filter.mp hx).2
    simp only [List.mem_append]
    rintro (hxd | hxc)
    · refine symbol_not_def_and_param (db.symbol x) ?_ hxp
      simpa using (List.mem_filter.mp hxd).2
    · exact hdisj x hxc (hparams_sub x hx)
  rw [step3, List.append_assoc]

/-- C1: within a scope, the composed environment lists all local definitions
first (in insertion order), then all captures (in insertion order), then all
local parameters (in insertion order); and `opt_path` derives the emitted
path index solely from a symbol's position in the composed environment. -/
theorem c1_environment_order (db : Database) (scope_id : Nat)
    (caps : List Nat)
    (hnd : (db.scope scope_id).local_symbols.Nodup)
    (hnc : caps.Nodup)
    (hdisj : ∀ x ∈ caps, x ∉ (db.scope scope_id).local_symbols) :
    composeFunctionEnv db scope_id caps =
      (db.scope scope_id).local_symbols.filter
          (fun s => (db.symbol s).is_definition)
        ++ caps
        ++ (db.scope scope_id).local_symbols.filter
          (fun s => (db.symbol s).is_parameter)
    ∧ ∀ (st : OptState) (sid symbol_id : Nat) (env0 : List Nat) (i : Nat),
        lookupMap st.environments sid = some env0 →
        (composedEnv st sid env0).findIdx? (fun id => id == symbol_id) = some i →
        opt_path st sid symbol_id = some (allocLir st (Lir.Path (pathLoop i))) := by
  refine ⟨composeFunctionEnv_eq db scope_id caps hnd hnc hdisj, ?_⟩
  intro st sid symbol_id env0 i henv hidx
  simp [opt_path, henv, hidx]

/-- C1 witness: a scope with a let-binding definition and a parameter,
composed with one capture. -/
theorem c1_witness :
    composeFunctionEnv
        ⟨[Symbol.LetBinding 0, Symbol.Parameter, Symbol.Parameter],
         [⟨[0, 1], []⟩], []⟩ 0 [2] = [0, 2, 1]
    ∧ opt_path ⟨[], [], [(0, [5, 7])], []⟩ 0 7 =
        some (⟨[Lir.Path 5], [], [(0, [5, 7])], []⟩, 0) := by
  have h := c1_environment_order
    ⟨[Symbol.LetBinding 0, Symbol.Parameter, Symbol.Parameter],
     [⟨[0, 1], []⟩], []⟩ 0 [2]
    (by decide) (by decide) (by decide)
  constructor
  · exact h.1.trans (by decide)
  · exact (h.2 ⟨[], [], [(0, [5, 7])], []⟩ 0 7 [5, 7] 1 rfl (by decide)).trans
      (by decide)

theorem pathLoop_eq (i : Nat) : pathLoop i = 3 * 2 ^ i - 1 := by
  induction i with
  | zero => simp [pathLoop]
  | succ n ih =>
    have h1 : (0 : Nat) < 3 * 2 ^ n := by positivity
    simp only [pathLoop, ih, pow_succ]
    omega

/-- C2: the emitted path integer for the symbol at 0-based position `i` of
the composed environment is the result of starting from `2` and `i` times
multiplying by two and adding one, which equals `3 * 2 ^ i - 1`; in
particular positions 0, 1, 2 give paths 2, 5, 11. -/
theorem c2_path_integer (st : OptState) (scope_id symbol_id : Nat)
    (env0 : List Nat) (i : Nat)
    (henv : lookupMap st.environments scope_id = some env0)
    (hidx : (composedEnv st scope_id env0).findIdx?
      (fun id => id == symbol_id) = some i) :
    opt_path st scope_id symbol_id =
      some (allocLir st (Lir.Path (3 * 2 ^ i - 1)))
    ∧ pathLoop i = 3 * 2 ^ i - 1
    ∧ pathLoop 0 = 2 ∧ pathLoop 1 = 5 ∧ pathLoop 2 = 11 := by
  refine ⟨?_, pathLoop_eq i, by decide, by decide, by decide⟩
  simp [opt_path, henv, hidx, pathLoop_eq]

/-- C2 witness: position 2 in a three-element environment yields path 11. -/
theorem c2_witness :
    opt_path ⟨[], [], [(0, [4, 5, 7])], []⟩ 0 7 =
      some (⟨[Lir.Path 11], [], [(0, [4, 5, 7])], []⟩, 0) := by
  exact (c2_path_integer ⟨[], [], [(0, [4, 5, 7])], []⟩ 0 7 [4, 5, 7] 2
    rfl (by decide)).1.trans (by decide)

/-- C8 counterexample: one parse error makes the driver report it and stop,
but the process exit status is `0`, not nonzero. -/
theorem c8_counterexample :
    cli_main [7] [] = { reported := [7], compiled := false, exitCode := 0 }
    ∧ (cli_main [7] []).exitCode = 0 := by
  exact ⟨rfl, rfl⟩

/-- C8 (amended): on any parse or lowering error the driver reports the
errors and skips the remaining stages, but it terminates with exit status
`0` — `main` returns normally in every branch. -/
theorem c8_error_handling (parseErrors lowerErrors : List Nat)
    (h : parseErrors ≠ [] ∨ lowerErrors ≠ []) :
    (cli_main parseErrors lowerErrors).reported =
      (if parseErrors ≠ [] then parseErrors else lowerErrors)
    ∧ (cli_main parseErrors lowerErrors).compiled = false
    ∧ (cli_main parseErrors lowerErrors).exitCode = 0 := by
  rcases h with h | h
  · have hne : ¬parseErrors.isEmpty := by
      simpa [List.isEmpty_iff] using h
    simp [cli_main, hne, h]
  · by_cases hp : parseErrors = []
    · have hne : ¬lowerErrors.isEmpty := by
        simpa [List.isEmpty_iff] using h
      simp [cli_main, hp, hne]
    · have hne : ¬parseErrors.isEmpty := by
        simpa [List.isEmpty_iff] using hp
      simp [cli_main, hne, hp]

/-- C8 witness: a lowering error alone is reported, stops compilation, and
still exits with status `0`. -/
theorem c8_witness :
    (cli_main [] [3]).reported = [3] ∧ (cli_main [] [3]).compiled = false
    ∧ (cli_main [] [3]).exitCode = 0 := by
  have h := c8_error_handling [] [3] (Or.inr (by decide))
  exact ⟨h.1.trans (by decide), h.2.1, h.2.2⟩

theorem restChain_append (lirs ls : List Lir) (base : Nat) :
    ∀ (k top : Nat), restChain lirs base k top →
      restChain (lirs ++ ls) base k top
  | 0, _, h => h
  | k + 1, top, h => by
    obtain ⟨prev, hget, hchain⟩ := h
    have hlt : top < lirs.length := by
      by_contra hge
      rw [List.get?_eq_none.mpr (le_of_not_lt hge)] at hget
      exact Option.noConfusion hget
    exact ⟨prev, by rw [List.get?_append hlt]; exact hget,
      restChain_append lirs ls base k prev hchain⟩

theorem restIter_chain (st : OptState) (v : Nat) :
    ∀ n, restChain ((restIter st v n).1).lirs v n ((restIter st v n).2)
  | 0 => rfl
  | n + 1 => by
    have ih := restIter_chain st v n
    simp only [restIter, allocLir]
    refine ⟨(restIter st v n).2, ?_, ?_⟩
    · exact List.get?_concat_length _ _
    · exact restChain_append _ _ _ _ _ ih

/-- C6 (amended): the operator desugaring table of the optimizer.
`a < b` lowers to `Gt(b, a)`; `a <= b` lowers to `Not(Gt(a, b))` (not to the
`>=` form with swapped operands); `a >= b` lowers to `Any(Eq(a, b), Gt(a, b))`
over shared operand ids; `a != b` lowers to `Not(Eq(a, b))`; `a % b` lowers
to `Rest(Divmod(a, b))`; and `ListIndex(v, i)` lowers to `First` of `i`
nested `Rest`s on the lowered value. -/
theorem c6_operator_lowering (db : Database) :
    (∀ fuel st scope_id lhs rhs,
      opt_lt db (fuel + 1) st scope_id lhs rhs =
        opt_gt db fuel st scope_id rhs lhs)
    ∧ (∀ fuel st scope_id lhs rhs st1 a st2 b,
      opt_hir db fuel st scope_id lhs = some (st1, a) →
      opt_hir db fuel st1 scope_id rhs = some (st2, b) →
      opt_gt db (fuel + 1) st scope_id lhs rhs =
        some (allocLir st2 (Lir.Gt a b)))
    ∧ (∀ fuel st scope_id lhs rhs st1 g,
      opt_gt db fuel st scope_id lhs rhs = some (st1, g) →
      opt_lteq db (fuel + 1) st scope_id lhs rhs =
        some (allocLir st1 (Lir.Not g)))
    ∧ (∀ fuel st scope_id lhs rhs st1 a st2 b,
      opt_hir db fuel st scope_id lhs = some (st1, a) →
      opt_hir db fuel st1 scope_id rhs = some (st2, b) →
      opt_gteq db (fuel + 1) st scope_id lhs rhs =
        some ({ st2 with lirs := st2.lirs ++
            [Lir.Eq a b, Lir.Gt a b,
             Lir.Any [st2.lirs.length, st2.lirs.length + 1]] },
          st2.lirs.length + 2))
    ∧ (∀ fuel st scope_id lhs rhs st1 e,
      opt_eq db fuel st scope_id lhs rhs = some (st1, e) →
      opt_neq db (fuel + 1) st scope_id lhs rhs =
        some (allocLir st1 (Lir.Not e)))
    ∧ (∀ fuel st scope_id lhs rhs st1 a st2 b,
      opt_hir db fuel st scope_id lhs = some (st1, a) →
      opt_hir db fuel st1 scope_id rhs = some (st2, b) →
      opt_remainder db (fuel + 1) st scope_id lhs rhs =
        some ({ st2 with lirs := st2.lirs ++
            [Lir.Divmod a b, Lir.Rest st2.lirs.length] },
          st2.lirs.length + 1))
    ∧ (∀ fuel st scope_id value idx st1 v,
      opt_hir db fuel st scope_id value = some (st1, v) →
      ∃ st' i' top,
        opt_list_index db (fuel + 1) st scope_id value idx = some (st', i')
        ∧ st'.lirs.get? i' = some (Lir.First top)
        ∧ restChain st'.lirs v idx.toNat top) := by
  refine ⟨?_, ?_, ?_, ?_, ?_, ?_, ?_⟩
  · intro fuel st scope_id lhs rhs
    rfl
  · intro fuel st scope_id lhs rhs st1 a st2 b h1 h2
    simp [opt_gt, h1, h2]
  · intro fuel st scope_id lhs rhs st1 g h1
    simp [opt_lteq, h1]
  · intro fuel st scope_id lhs rhs st1 a st2 b h1 h2
    simp [opt_gteq, h1, h2, allocLir, List.append_assoc]
  · intro fuel st scope_id lhs rhs st1 e h1
    simp [opt_neq, h1]
  · intro fuel st scope_id lhs rhs st1 a st2 b h1 h2
    simp [opt_remainder, h1, h2, allocLir, List.append_assoc]
  · intro fuel st scope_id value idx st1 v h1
    have hrun : opt_list_index db (fuel + 1) st scope_id value idx =
        some (allocLir (restIter st1 v idx.toNat).1
          (Lir.First (restIter st1 v idx.toNat).2)) := by
      simp [opt_list_index, h1]
    refine ⟨_, _, (restIter st1 v idx.toNat).2, hrun, ?_, ?_⟩
    · simp only [allocLir]
      exact List.get?_concat_length _ _
    · simp only [allocLir]
      exact restChain_append _ _ _ _ _ (restIter_chain st1 v idx.toNat)

/-- C6 counterexample: on `a <= b` over two atoms the emitted root node is
`Not(Gt(a, b))` — operands in source order under a negated `Gt` — and not an
`Any(..)` node, which the `>=`-with-swapped-operands form would produce. -/
theorem c6_counterexample :
    opt_hir exDbLteq 9 initState 0 2 =
      some (⟨[Lir.Atom [1], Lir.Atom [2], Lir.Gt 0 1, Lir.Not 2],
        [], [], []⟩, 3)
    ∧ Lir.isAny (Lir.Not 2) = false := by
  exact ⟨rfl, rfl⟩

/-- C6 witness: each row of the desugaring table applied at concrete
operands over `exDbLteq` (atoms at HIR ids 0 and 1). -/
theorem c6_witness :
    opt_lt exDbLteq 6 initState 0 0 1 = opt_gt exDbLteq 5 initState 0 1 0
    ∧ opt_gt exDbLteq 6 initState 0 0 1 =
        some (allocLir ⟨[Lir.Atom [1], Lir.Atom [2]], [], [], []⟩ (Lir.Gt 0 1))
    ∧ opt_lteq exDbLteq 7 initState 0 0 1 =
        some (allocLir ⟨[Lir.Atom [1], Lir.Atom [2], Lir.Gt 0 1], [], [], []⟩
          (Lir.Not 2))
    ∧ opt_gteq exDbLteq 6 initState 0 0 1 =
        some (⟨[Lir.Atom [1], Lir.Atom [2], Lir.Eq 0 1, Lir.Gt 0 1,
          Lir.Any [2, 3]], [], [], []⟩, 4)
    ∧ opt_neq exDbLteq 7 initState 0 0 1 =
        some (allocLir ⟨[Lir.Atom [1], Lir.Atom [2], Lir.Eq 0 1], [], [], []⟩
          (Lir.Not 2))
    ∧ opt_remainder exDbLteq 6 initState 0 0 1 =
        some (⟨[Lir.Atom [1], Lir.Atom [2], Lir.Divmod 0 1, Lir.Rest 2],
          [], [], []⟩, 3)
    ∧ ∃ st' i' top,
        opt_list_index exDbLteq 6 initState 0 0 (2 : Int) = some (st', i')
        ∧ st'.lirs.get? i' = some (Lir.First top)
        ∧ restChain st'.lirs 0 ((2 : Int)).toNat top := by
  have h := c6_operator_lowering exDbLteq
  refine ⟨h.1 5 initState 0 0 1, ?_, ?_, ?_, ?_, ?_, ?_⟩
  · exact h.2.1 5 initState 0 0 1 ⟨[Lir.Atom [1]], [], [], []⟩ 0
      ⟨[Lir.Atom [1], Lir.Atom [2]], [], [], []⟩ 1 rfl rfl
  · exact h.2.2.1 6 initState 0 0 1
      ⟨[Lir.Atom [1], Lir.Atom [2], Lir.Gt 0 1], [], [], []⟩ 2 rfl
  · exact (h.2.2.2.1 5 initState 0 0 1 ⟨[Lir.Atom [1]], [], [], []⟩ 0
      ⟨[Lir.Atom [1], Lir.Atom [2]], [], [], []⟩ 1 rfl rfl).trans rfl
  · exact h.2.2.2.2.1 6 initState 0 0 1
      ⟨[Lir.Atom [1], Lir.Atom [2], Lir.Eq 0 1], [], [], []⟩ 2 rfl
  · exact (h.2.2.2.2.2.1 5 initState 0 0 1 ⟨[Lir.Atom [1]], [], [], []⟩ 0
      ⟨[Lir.Atom [1], Lir.Atom [2]], [], [], []⟩ 1 rfl rfl).trans rfl
  · exact h.2.2.2.2.2.2 5 initState 0 0 (2 : Int)
      ⟨[Lir.Atom [1]], [], [], []⟩ 0 rfl

theorem opt_path_list_length :
    ∀ (syms : List Nat) (st : OptState) (scope_id : Nat) (st' : OptState)
      (ids : List Nat),
      opt_path_list st scope_id syms = some (st', ids) →
      ids.length = syms.length
  | [], st, scope_id, st', ids, h => by
    simp only [opt_path_list, Option.some.injEq, Prod.mk.injEq] at h
    simp [← h.2]
  | s :: rest, st, scope_id, st', ids, h => by
    simp only [opt_path_list, Option.bind_eq_bind, Option.bind_eq_some] at h
    obtain ⟨⟨st1, i⟩, h1, ⟨⟨st2, is⟩, h2, h3⟩⟩ := h
    simp only [Option.some.injEq, Prod.mk.injEq] at h3
    obtain ⟨rfl, rfl⟩ := h3
    simp [opt_path_list_length rest _ scope_id _ _ h2]

theorem idsFold_length (f : OptState → Nat → Option (OptState × Nat)) :
    ∀ (l : List Nat) (st st' : OptState) (ids : List Nat),
      idsFold f st l = some (st', ids) → ids.length = l.length
  | [], st, st', ids, h => by
    simp only [idsFold, Option.some.injEq, Prod.mk.injEq] at h
    simp [← h.2]
  | x :: rest, st, st', ids, h => by
    simp only [idsFold] at h
    cases hfx : f st x with
    | none => rw [hfx] at h; cases h
    | some p =>
      obtain ⟨st1, i⟩ := p
      rw [hfx] at h
      simp only at h
      cases hrest : idsFold f st1 rest with
      | none => rw [hrest] at h; cases h
      | some q =>
        obtain ⟨st2, is⟩ := q
        rw [hrest] at h
        simp only [Option.some.injEq, Prod.mk.injEq] at h
        obtain ⟨rfl, rfl⟩ := h
        simp [idsFold_length f rest st1 st2 is hrest]

/-- C5: a reference to a function symbol `f` lowers to a `Closure` whose
capture-path count is the number of local definitions of `f`'s scope plus the
number of captures of `f`'s scope — the paths to the definitions come first,
then the paths to the captures. -/
theorem c5_closure_captures (db : Database) (fuel : Nat)
    (st st1 st2 st3 : OptState) (scope_id symbol_id fscope fhir body : Nat)
    (defPaths capPaths fcaps : List Nat)
    (hsym : db.symbol symbol_id = Symbol.Function fscope fhir)
    (h1 : opt_path st scope_id symbol_id = some (st1, body))
    (h2 : opt_path_list st1 scope_id
      ((db.scope fscope).local_symbols.filter
        (fun s => (db.symbol s).is_definition)) = some (st2, defPaths))
    (h3 : lookupMap st2.captures fscope = some fcaps)
    (h4 : opt_path_list st2 scope_id fcaps = some (st3, capPaths)) :
    opt_reference db (fuel + 1) st scope_id symbol_id =
      some (allocLir st3 (Lir.Closure body (defPaths ++ capPaths)))
    ∧ (defPaths ++ capPaths).length =
      ((db.scope fscope).local_symbols.filter
        (fun s => (db.symbol s).is_definition)).length + fcaps.length := by
  constructor
  · simp [opt_reference, hsym, h1, h2, h3, h4]
  · simp [opt_path_list_length _ _ _ _ _ h2,
      opt_path_list_length _ _ _ _ _ h4]

/-- C5 witness: a function whose scope has one local definition and one
capture; the emitted closure carries two capture paths. -/
theorem c5_witness :
    opt_reference exDbClosure 5 exStClosure 1 1 =
      some (⟨[Lir.Path 2, Lir.Path 5, Lir.Path 11, Lir.Closure 0 [1, 2]],
        [(2, [4])], [(1, [1, 2, 4])], []⟩, 3)
    ∧ ([1] ++ [2] : List Nat).length = 1 + 1 := by
  have h := c5_closure_captures exDbClosure 4 exStClosure
    ⟨[Lir.Path 2], [(2, [4])], [(1, [1, 2, 4])], []⟩
    ⟨[Lir.Path 2, Lir.Path 5], [(2, [4])], [(1, [1, 2, 4])], []⟩
    ⟨[Lir.Path 2, Lir.Path 5, Lir.Path 11], [(2, [4])], [(1, [1, 2, 4])], []⟩
    1 1 2 0 0 [1] [2] [4] rfl rfl rfl rfl rfl
  exact ⟨h.1.trans rfl, by decide⟩

/-- C4: lowering a call whose callee is a reference to a known function
symbol emits `Run(callee_path, capture_paths ++ lowered_args)` — the paths to
the callee scope's captures are prepended, in order, before the lowered
source arguments; lowering any other call emits
`Run(lowered_callee, lowered_args)` with no capture paths prepended. -/
theorem c4_call_lowering (db : Database) :
    (∀ fuel st st1 st2 st3 scope_id callee symbol_id cscope chir calleeId
        (args ccaps capPaths argIds : List Nat),
      db.hir callee = Hir.Reference symbol_id →
      db.symbol symbol_id = Symbol.Function cscope chir →
      lookupMap st.captures cscope = some ccaps →
      opt_path_list st scope_id ccaps = some (st1, capPaths) →
      opt_path st1 scope_id symbol_id = some (st2, calleeId) →
      idsFold (fun st x => opt_hir db fuel st scope_id x) st2 args =
        some (st3, argIds) →
      opt_function_call db (fuel + 1) st scope_id callee args =
        some (allocLir st3 (Lir.Run calleeId (capPaths ++ argIds)))
      ∧ capPaths.length = ccaps.length ∧ argIds.length = args.length)
    ∧ (∀ fuel st st1 st2 scope_id callee calleeId (args argIds : List Nat),
      (∀ symbol_id, db.hir callee = Hir.Reference symbol_id →
        ∀ cscope chir, db.symbol symbol_id ≠ Symbol.Function cscope chir) →
      opt_hir db fuel st scope_id callee = some (st1, calleeId) →
      idsFold (fun st x => opt_hir db fuel st scope_id x) st1 args =
        some (st2, argIds) →
      opt_function_call db (fuel + 1) st scope_id callee args =
        some (allocLir st2 (Lir.Run calleeId argIds))
      ∧ argIds.length = args.length) := by
  constructor
  · intro fuel st st1 st2 st3 scope_id callee symbol_id cscope chir calleeId
      args ccaps capPaths argIds hcal hsym hcaps hp1 hp2 hargs
    refine ⟨?_, opt_path_list_length _ _ _ _ _ hp1, idsFold_length _ _ _ _ _ hargs⟩
    simp [opt_function_call, hcal, hsym, hcaps, hp1, hp2, hargs]
  · intro fuel st st1 st2 scope_id callee calleeId args argIds hnotfn hcal hargs
    refine ⟨?_, idsFold_length _ _ _ _ _ hargs⟩
    cases hhir : db.hir callee with
    | Reference symbol_id =>
      have hne := hnotfn symbol_id hhir
      cases hsym : db.symbol symbol_id with
      | Function cscope chir => exact absurd hsym (hne cscope chir)
      | Parameter =>
        simp [opt_function_call, hhir, hsym, hcal, hargs]
      | LetBinding h =>
        simp [opt_function_call, hhir, hsym, hcal, hargs]
      | ConstBinding h =>
        simp [opt_function_call, hhir, hsym, hcal, hargs]
    | Unknown => simp [opt_function_call, hhir, hcal, hargs]
    | Atom b => simp [opt_function_call, hhir, hcal, hargs]
    | Scope a b => simp [opt_function_call, hhir, hcal, hargs]
    | FunctionCall a b => simp [opt_function_call, hhir, hcal, hargs]
    | BinaryOp a b c => simp [opt_function_call, hhir, hcal, hargs]
    | Not a => simp [opt_function_call, hhir, hcal, hargs]
    | If a b c => simp [opt_function_call, hhir, hcal, hargs]
    | List a => simp [opt_function_call, hhir, hcal, hargs]
    | ListIndex a b => simp [opt_function_call, hhir, hcal, hargs]

/-- C4 witness: in `exDbMutual`, the call `g(x)` inside `f` prepends the
paths to `g`'s two captures before the lowered argument; a call whose callee
is an atom prepends nothing. -/
theorem c4_witness :
    opt_function_call exDbMutual 20 exStMutual 2 4 [5] =
      some (⟨[Lir.Path 5, Lir.Path 2, Lir.Path 2, Lir.Path 23,
        Lir.Run 2 [0, 1, 3]], exStMutual.captures, exStMutual.environments,
        []⟩, 4)
    ∧ opt_function_call exDbMutual 20 exStMutual 2 12 [5] =
      some (⟨[Lir.Atom [1], Lir.Path 23, Lir.Run 0 [1]],
        exStMutual.captures, exStMutual.environments, []⟩, 2) := by
  have hd := (c4_call_lowering exDbMutual).1 19 exStMutual
    ⟨[Lir.Path 5, Lir.Path 2], exStMutual.captures,
      exStMutual.environments, []⟩
    ⟨[Lir.Path 5, Lir.Path 2, Lir.Path 2], exStMutual.captures,
      exStMutual.environments, []⟩
    ⟨[Lir.Path 5, Lir.Path 2, Lir.Path 2, Lir.Path 23],
      exStMutual.captures, exStMutual.environments, []⟩
    2 4 2 3 3 2 [5] [1, 2] [0, 1] [3]
    rfl rfl rfl rfl rfl rfl
  have hi := (c4_call_lowering exDbMutual).2 19 exStMutual
    ⟨[Lir.Atom [1]], exStMutual.captures, exStMutual.environments, []⟩
    ⟨[Lir.Atom [1], Lir.Path 23], exStMutual.captures,
      exStMutual.environments, []⟩
    2 12 0 [5] [1]
    (fun s hs => nomatch hs) rfl rfl
  exact ⟨hd.1.trans rfl, hi.1.trans rfl⟩

/-- C7 counterexample: at an expression position beginning with `(`, the
parser emits an error event (recovering by skipping tokens) instead of
parsing a parenthesized atom — here `( 1 )` yields an error node and an
error count of `1`. -/
theorem c7_counterexample :
    expr_binding_power 10 ⟨[.OpenParen, .Int, .CloseParen], 0, 0⟩ 0 =
      some (⟨[.OpenParen, .Int, .CloseParen], 3, 1⟩,
        Cst.err [.OpenParen, .Int, .CloseParen])
    ∧ (1 : Nat) ≠ 0 := by
  exact ⟨rfl, by decide⟩

/-- C7 (amended): `(` is not in the expression atom set (literal, list,
`if`): whenever an expression position begins with `(`, the Pratt loop takes
the error branch, emitting an error event and recovering, rather than
parsing a parenthesized subexpression as an atom. -/
theorem c7_paren_rejected (p : ParseState) (minimum_binding_power fuel : Nat)
    (h : atKind p SyntaxKind.OpenParen = true) :
    expr_binding_power (fuel + 2) p minimum_binding_power =
      some (perror p exprRecoverySet)
    ∧ (perror p exprRecoverySet).1.errors = p.errors + 1 := by
  have hcurr : currKind p = some SyntaxKind.OpenParen := by
    have h' : (currKind p == some SyntaxKind.OpenParen) = true := h
    exact eq_of_beq h'
  constructor
  · have hnot : atKind p SyntaxKind.Not = false := by simp [atKind, hcurr]
    have hint : atKind p SyntaxKind.Int = false := by simp [atKind, hcurr]
    have hstr : atKind p SyntaxKind.String = false := by simp [atKind, hcurr]
    have hid : atKind p SyntaxKind.Ident = false := by simp [atKind, hcurr]
    have htru : atKind p SyntaxKind.True = false := by simp [atKind, hcurr]
    have hfls : atKind p SyntaxKind.False = false := by simp [atKind, hcurr]
    have hnil : atKind p SyntaxKind.Nil = false := by simp [atKind, hcurr]
    have hbr : atKind p SyntaxKind.OpenBracket = false := by
      simp [atKind, hcurr]
    have hif : atKind p SyntaxKind.If = false := by simp [atKind, hcurr]
    simp [expr_binding_power, exprAtom, hnot, hint, hstr, hid, htru, hfls,
      hnil, hbr, hif]
  · simp [perror]

/-- C7 witness: the amended behavior at the concrete input `( 1 )`. -/
theorem c7_witness :
    expr_binding_power 10 ⟨[.OpenParen, .Int, .CloseParen], 0, 0⟩ 0 =
      some (perror ⟨[.OpenParen, .Int, .CloseParen], 0, 0⟩ exprRecoverySet)
    ∧ (perror ⟨[.OpenParen, .Int, .CloseParen], 0, 0⟩ exprRecoverySet).1.errors
      = 1 := by
  have h := c7_paren_rejected ⟨[.OpenParen, .Int, .CloseParen], 0, 0⟩ 0 8 rfl
  exact ⟨h.1, h.2.trans rfl⟩

theorem goodCstList_append :
    ∀ (a b : List Cst), goodCstList (a ++ b) = (goodCstList a && goodCstList b)
  | [], b => by simp [goodCstList]
  | c :: cs, b => by
    simp [goodCstList, goodCstList_append cs b, Bool.and_assoc]

theorem expectTok_good (p : ParseState) (k : SyntaxKind) :
    goodCst (expectTok p k).2 = true
    ∧ rootIsPrefixExpr (expectTok p k).2 = false := by
  by_cases h : atKind p k = true
  · simp [expectTok, h, goodCst, rootIsPrefixExpr]
  · simp [expectTok, h, goodCst, rootIsPrefixExpr]

theorem perror_good (p : ParseState) (recovery : List SyntaxKind) :
    goodCst (perror p recovery).2 = true
    ∧ rootIsPrefixExpr (perror p recovery).2 = false := by
  simp [perror, goodCst, rootIsPrefixExpr]

/-- The shared invariant of every expression-parser production: no
`FunctionCall` node ever has a `PrefixExpr` callee and no `BinaryExpr` ever
has a `PrefixExpr` left operand, because the prefix branch of
`expr_binding_power` returns before the postfix-call and binary loops. -/
theorem parser_good : ∀ fuel : Nat,
    (∀ p minBp p' t,
      expr_binding_power fuel p minBp = some (p', t) → goodCst t = true)
    ∧ (∀ p p' r, exprAtom fuel p = some (p', r) →
      goodCst (Sum.elim id id r) = true
      ∧ rootIsPrefixExpr (Sum.elim id id r) = false)
    ∧ (∀ p lhs p' t, callLoop fuel p lhs = some (p', t) →
      goodCst lhs = true → rootIsPrefixExpr lhs = false →
      goodCst t = true ∧ rootIsPrefixExpr t = false)
    ∧ (∀ p acc p' items, callArgs fuel p acc = some (p', items) →
      goodCstList acc = true → goodCstList items = true)
    ∧ (∀ p lhs minBp p' t, binLoop fuel p lhs minBp = some (p', t) →
      goodCst lhs = true → rootIsPrefixExpr lhs = false →
      goodCst t = true ∧ rootIsPrefixExpr t = false)
    ∧ (∀ p p' t, list_expr fuel p = some (p', t) →
      goodCst t = true ∧ rootIsPrefixExpr t = false)
    ∧ (∀ p acc p' items, listItems fuel p acc = some (p', items) →
      goodCstList acc = true → goodCstList items = true)
    ∧ (∀ p p' t, if_expr fuel p = some (p', t) →
      goodCst t = true ∧ rootIsPrefixExpr t = false)
    ∧ (∀ p p' t, blockProd fuel p = some (p', t) →
      goodCst t = true ∧ rootIsPrefixExpr t = false) := by
  intro fuel
  induction fuel with
  | zero =>
    refine ⟨?_, ?_, ?_, ?_, ?_, ?_, ?_, ?_, ?_⟩
    · intro p minBp p' t h; exact nomatch h
    · intro p p' r h; exact nomatch h
    · intro p lhs p' t h; exact nomatch h
    · intro p acc p' items h; exact nomatch h
    · intro p lhs minBp p' t h; exact nomatch h
    · intro p p' t h; exact nomatch h
    · intro p acc p' items h; exact nomatch h
    · intro p p' t h; exact nomatch h
    · intro p p' t h; exact nomatch h
  | succ fuel ih =>
    obtain ⟨ih1, ih2, ih3, ih4, ih5, ih6, ih7, ih8, ih9⟩ := ih
    refine ⟨?_, ?_, ?_, ?_, ?_, ?_, ?_, ?_, ?_⟩
    · -- expr_binding_power
      intro p minBp p' t h
      rw [expr_binding_power] at h
      by_cases hnot : atKind p SyntaxKind.Not
      · rw [if_pos hnot] at h
        cases hrec : expr_binding_power fuel (bumpTok p) 255 with
        | none => rw [hrec] at h; cases h
        | some q =>
          obtain ⟨p2, inner⟩ := q
          rw [hrec] at h
          cases h
          have hin := ih1 _ _ _ _ hrec
          simp [goodCst, goodCstList, hin]
      · rw [if_neg hnot] at h
        cases hat : exprAtom fuel p with
        | none => rw [hat] at h; cases h
        | some q =>
          obtain ⟨p1, r⟩ := q
          rw [hat] at h
          cases r with
          | inl e =>
            cases h
            simpa using (ih2 _ _ _ hat).1
          | inr lhs =>
            dsimp only at h
            have hlhs := ih2 _ _ _ hat
            simp only [Sum.elim_inr, id_eq] at hlhs
            cases hcl : callLoop fuel p1 lhs with
            | none => rw [hcl] at h; cases h
            | some q2 =>
              obtain ⟨p2, lhs2⟩ := q2
              rw [hcl] at h
              have h2 := ih3 _ _ _ _ hcl hlhs.1 hlhs.2
              exact (ih5 _ _ _ _ _ h h2.1 h2.2).1
    · -- exprAtom
      intro p p' r h
      rw [exprAtom] at h
      by_cases hlit : (atKind p SyntaxKind.Int || atKind p SyntaxKind.String
          || atKind p SyntaxKind.Ident || atKind p SyntaxKind.True
          || atKind p SyntaxKind.False || atKind p SyntaxKind.Nil) = true
      · rw [if_pos hlit] at h
        cases hck : currKind p with
        | none => rw [hck] at h; cases h
        | some k =>
          rw [hck] at h
          cases h
          simp [goodCst, goodCstList, rootIsPrefixExpr]
      · rw [if_neg hlit] at h
        by_cases hbr : atKind p SyntaxKind.OpenBracket
        · rw [if_pos hbr] at h
          cases hle : list_expr fuel p with
          | none => rw [hle] at h; cases h
          | some q =>
            obtain ⟨p1, t1⟩ := q
            rw [hle] at h
            cases h
            simpa using ih6 _ _ _ hle
        · rw [if_neg hbr] at h
          by_cases hif : atKind p SyntaxKind.If
          · rw [if_pos hif] at h
            cases hie : if_expr fuel p with
            | none => rw [hie] at h; cases h
            | some q =>
              obtain ⟨p1, t1⟩ := q
              rw [hie] at h
              cases h
              simpa using ih8 _ _ _ hie
          · rw [if_neg hif] at h
            cases h
            simpa using perror_good p exprRecoverySet
    · -- callLoop
      intro p lhs p' t h hg hnp
      rw [callLoop] at h
      by_cases hop : atKind p SyntaxKind.OpenParen
      · rw [if_pos hop] at h
        cases hargs : callArgs fuel (bumpTok p) [] with
        | none => rw [hargs] at h; cases h
        | some q =>
          obtain ⟨p1, argChildren⟩ := q
          rw [hargs] at h
          dsimp only at h
          cases hexp : expectTok p1 SyntaxKind.CloseParen with
          | mk p2 closer =>
            rw [hexp] at h
            dsimp only at h
            have hargsGood : goodCstList argChildren = true :=
              ih4 _ _ _ _ hargs rfl
            have hcloser := expectTok_good p1 SyntaxKind.CloseParen
            rw [hexp] at hcloser
            refine ih3 _ _ _ _ h ?_ rfl
            simp [goodCst, goodCstList, goodCstList_append, hg, hnp,
              hargsGood, hcloser.1]
      · rw [if_neg hop] at h
        cases h
        exact ⟨hg, hnp⟩
    · -- callArgs
      intro p acc p' items h hacc
      rw [callArgs] at h
      by_cases hcp : atKind p SyntaxKind.CloseParen
      · rw [if_pos hcp] at h
        cases h
        exact hacc
      · rw [if_neg hcp] at h
        cases he : expr_binding_power fuel p 0 with
        | none => rw [he] at h; cases h
        | some q =>
          obtain ⟨p1, e⟩ := q
          rw [he] at h
          dsimp only at h
          have hge := ih1 _ _ _ _ he
          by_cases hcm : atKind p1 SyntaxKind.Comma
          · rw [if_pos hcm] at h
            refine ih4 _ _ _ _ h ?_
            simp [goodCstList_append, hacc, hge, goodCstList, goodCst]
          · rw [if_neg hcm] at h
            cases h
            simp [goodCstList_append, hacc, hge, goodCstList, goodCst]
    · -- binLoop
      intro p lhs minBp p' t h hg hnp
      rw [binLoop] at h
      cases hop : opOfKind (currKind p) with
      | none =>
        rw [hop] at h
        cases h
        exact ⟨hg, hnp⟩
      | some op =>
        rw [hop] at h
        dsimp only at h
        by_cases hbp : (binding_power op).1 < minBp
        · rw [if_pos hbp] at h
          cases h
          exact ⟨hg, hnp⟩
        · rw [if_neg hbp] at h
          cases hrhs : expr_binding_power fuel (bumpTok p)
              (binding_power op).2 with
          | none => rw [hrhs] at h; cases h
          | some q =>
            obtain ⟨p1, rhs⟩ := q
            rw [hrhs] at h
            dsimp only at h
            have hgr := ih1 _ _ _ _ hrhs
            refine ih5 _ _ _ _ _ h ?_ rfl
            simp [goodCst, goodCstList, hg, hnp, hgr]
    · -- list_expr
      intro p p' t h
      rw [list_expr] at h
      by_cases hob : atKind p SyntaxKind.OpenBracket
      · rw [if_pos hob] at h
        cases hit : listItems fuel (bumpTok p) [] with
        | none => rw [hit] at h; cases h
        | some q =>
          obtain ⟨p1, items⟩ := q
          rw [hit] at h
          dsimp only at h
          cases hexp : expectTok p1 SyntaxKind.CloseBracket with
          | mk p2 closer =>
            rw [hexp] at h
            dsimp only at h
            cases h
            have hitems : goodCstList items = true := ih7 _ _ _ _ hit rfl
            have hcloser := expectTok_good p1 SyntaxKind.CloseBracket
            rw [hexp] at hcloser
            constructor
            · simp [goodCst, goodCstList, goodCstList_append, hitems,
                hcloser.1]
            · rfl
      · rw [if_neg hob] at h
        cases hexp0 : expectTok p SyntaxKind.OpenBracket with
        | mk pa opener =>
          rw [hexp0] at h
          dsimp only at h
          cases hit : listItems fuel pa [] with
          | none => rw [hit] at h; cases h
          | some q =>
            obtain ⟨p1, items⟩ := q
            rw [hit] at h
            dsimp only at h
            cases hexp : expectTok p1 SyntaxKind.CloseBracket with
            | mk p2 closer =>
              rw [hexp] at h
              dsimp only at h
              cases h
              have hitems : goodCstList items = true := ih7 _ _ _ _ hit rfl
              have hcloser := expectTok_good p1 SyntaxKind.CloseBracket
              rw [hexp] at hcloser
              constructor
              · simp [goodCst, goodCstList, goodCstList_append, hitems,
                  hcloser.1]
              · rfl
    · -- listItems
      intro p acc p' items h hacc
      rw [listItems] at h
      by_cases hcb : atKind p SyntaxKind.CloseBracket
      · rw [if_pos hcb] at h
        cases h
        exact hacc
      · rw [if_neg hcb] at h
        cases he : expr_binding_power fuel p 0 with
        | none => rw [he] at h; cases h
        | some q =>
          obtain ⟨p1, e⟩ := q
          rw [he] at h
          dsimp only at h
          have hge := ih1 _ _ _ _ he
          by_cases hcm : atKind p1 SyntaxKind.Comma
          · rw [if_pos hcm] at h
            refine ih7 _ _ _ _ h ?_
            simp [goodCstList_append, hacc, hge, goodCstList, goodCst]
          · rw [if_neg hcm] at h
            cases h
            simp [goodCstList_append, hacc, hge, goodCstList, goodCst]
    · -- if_expr
      intro p p' t h
      rw [if_expr] at h
      cases hexp0 : expectTok p SyntaxKind.If with
      | mk p1 ifTok =>
        rw [hexp0] at h
        dsimp only at h
        cases hc : expr_binding_power fuel p1 0 with
        | none => rw [hc] at h; cases h
        | some q =>
          obtain ⟨p2, condition⟩ := q
          rw [hc] at h
          dsimp only at h
          cases hb1 : blockProd fuel p2 with
          | none => rw [hb1] at h; cases h
          | some q2 =>
            obtain ⟨p3, thenB⟩ := q2
            rw [hb1] at h
            dsimp only at h
            cases hexp1 : expectTok p3 SyntaxKind.Else with
            | mk p4 elseTok =>
              rw [hexp1] at h
              dsimp only at h
              cases hb2 : blockProd fuel p4 with
              | none => rw [hb2] at h; cases h
              | some q3 =>
                obtain ⟨p5, elseB⟩ := q3
                rw [hb2] at h
                dsimp only at h
                cases h
                have hgi := expectTok_good p SyntaxKind.If
                rw [hexp0] at hgi
                have hge := expectTok_good p3 SyntaxKind.Else
                rw [hexp1] at hge
                have hgc := ih1 _ _ _ _ hc
                have hgb1 := ih9 _ _ _ hb1
                have hgb2 := ih9 _ _ _ hb2
                constructor
                · simp [goodCst, goodCstList, hgi.1, hge.1, hgc,
                    hgb1.1, hgb2.1]
                · rfl
    · -- blockProd
      intro p p' t h
      rw [blockProd] at h
      cases hexp0 : expectTok p SyntaxKind.OpenBrace with
      | mk p1 opener =>
        rw [hexp0] at h
        dsimp only at h
        cases he : expr_binding_power fuel p1 0 with
        | none => rw [he] at h; cases h
        | some q =>
          obtain ⟨p2, e⟩ := q
          rw [he] at h
          dsimp only at h
          cases hexp1 : expectTok p2 SyntaxKind.CloseBrace with
          | mk p3 closer =>
            rw [hexp1] at h
            dsimp only at h
            cases h
            have hgo := expectTok_good p SyntaxKind.OpenBrace
            rw [hexp0] at hgo
            have hgc := expectTok_good p2 SyntaxKind.CloseBrace
            rw [hexp1] at hgc
            have hge := ih1 _ _ _ _ he
            constructor
            · simp [goodCst, goodCstList, hgo.1, hgc.1, hge]
            · rfl

/-- C9: a parsed prefix `!` expression is never extended: in every tree the
expression parser produces, no `FunctionCall` node has a `PrefixExpr` callee
and no `BinaryExpr` has a `PrefixExpr` left operand; concretely, parsing
`!a + b` stops the prefix expression after `!a` (position 2), leaving `+ b`
unconsumed by it. -/
theorem c9_prefix_never_extended :
    (∀ fuel p minimum_binding_power p' t,
      expr_binding_power fuel p minimum_binding_power = some (p', t) →
      goodCst t = true)
    ∧ expr_binding_power 10 ⟨[.Not, .Ident, .Plus, .Ident], 0, 0⟩ 0 =
        some (⟨[.Not, .Ident, .Plus, .Ident], 2, 0⟩,
          Cst.node .PrefixExpr [Cst.leaf .Not,
            Cst.node .LiteralExpr [Cst.leaf .Ident]]) := by
  exact ⟨fun fuel => (parser_good fuel).1, rfl⟩

/-- C9 witness: the invariant evaluated on the concrete parse of `!a + b`. -/
theorem c9_witness :
    goodCst (Cst.node .PrefixExpr [Cst.leaf .Not,
      Cst.node .LiteralExpr [Cst.leaf .Ident]]) = true := by
  exact c9_prefix_never_extended.1 10 ⟨[.Not, .Ident, .Plus, .Ident], 0, 0⟩ 0
    ⟨[.Not, .Ident, .Plus, .Ident], 2, 0⟩ _ c9_prefix_never_extended.2

theorem lookupMap_insertMap_self {α : Type} :
    ∀ (m : List (Nat × α)) (k : Nat) (v : α),
      lookupMap (insertMap m k v) k = some v
  | [], k, v => by simp [insertMap, lookupMap]
  | (k', v') :: rest, k, v => by
    by_cases h : k = k'
    · simp [insertMap, h, lookupMap]
    · simp [insertMap, h, lookupMap, lookupMap_insertMap_self rest k v]

theorem lookupMap_insertMap_ne {α : Type} :
    ∀ (m : List (Nat × α)) (k k' : Nat) (v : α), k' ≠ k →
      lookupMap (insertMap m k v) k' = lookupMap m k'
  | [], k, k', v, h => by simp [insertMap, lookupMap, h]
  | (k0, v0) :: rest, k, k', v, h => by
    by_cases h0 : k = k0
    · subst h0
      simp [insertMap, lookupMap, h]
    · simp only [insertMap, if_neg h0]
      by_cases h1 : k' = k0
      · simp [lookupMap, h1]
      · simp [lookupMap, h1, lookupMap_insertMap_ne rest k k' v h]

theorem modifyMap_lookup {α : Type} :
    ∀ (m : List (Nat × α)) (k : Nat) (f : α → α) (m' : List (Nat × α)),
      modifyMap m k f = some m' →
      ∀ k', lookupMap m' k' =
        if k' = k then (lookupMap m k).map f else lookupMap m k'
  | [], k, f, m', h => by simp [modifyMap] at h
  | (k0, v0) :: rest, k, f, m', h => by
    by_cases h0 : k = k0
    · subst h0
      simp only [modifyMap, if_pos rfl, ite_true, Option.some.injEq] at h
      subst h
      intro k'
      by_cases h1 : k' = k
      · simp [lookupMap, h1]
      · simp [lookupMap, h1]
    · simp only [modifyMap, if_neg h0] at h
      cases hrec : modifyMap rest k f with
      | none => rw [hrec] at h; cases h
      | some rest' =>
        rw [hrec] at h
        simp only [Option.some.injEq] at h
        subst h
        intro k'
        have hrl := modifyMap_lookup rest k f rest' hrec k'
        by_cases h1 : k' = k0
        · subst h1
          have hkk : k' ≠ k := fun hh => h0 hh.symm
          simp [lookupMap, hkk]
        · by_cases h2 : k' = k
          · subst h2
            simp [lookupMap, h1, hrl]
          · simp [lookupMap, h1, h2, hrl]

theorem modifyMap_of_lookup {α : Type} :
    ∀ (m : List (Nat × α)) (k : Nat) (f : α → α) (v : α),
      lookupMap m k = some v → ∃ m', modifyMap m k f = some m'
  | [], k, f, v, h => by simp [lookupMap] at h
  | (k0, v0) :: rest, k, f, v, h => by
    by_cases h0 : k = k0
    · exact ⟨(k0, f v0) :: rest, by simp [modifyMap, h0]⟩
    · simp only [lookupMap, if_neg h0] at h
      obtain ⟨rest', hrest⟩ := modifyMap_of_lookup rest k f v h
      exact ⟨(k0, v0) :: rest', by simp [modifyMap, h0, hrest]⟩

theorem insertSet_prefix (s : List Nat) (x : Nat) : s <+: insertSet s x := by
  unfold insertSet
  split
  · exact List.prefix_refl s
  · exact ⟨[x], rfl⟩

theorem extendSet_prefix : ∀ (xs s : List Nat), s <+: extendSet s xs
  | [], s => List.prefix_refl s
  | x :: t, s => by
    have h1 := insertSet_prefix s x
    have h2 := extendSet_prefix t (insertSet s x)
    exact h1.trans h2

theorem capturesLe_refl (st : OptState) : capturesLe st st :=
  fun s v h => ⟨v, h, List.prefix_refl v⟩

theorem capturesLe_trans {a b c : OptState}
    (h1 : capturesLe a b) (h2 : capturesLe b c) : capturesLe a c := by
  intro s v hv
  obtain ⟨v1, hv1, hp1⟩ := h1 s v hv
  obtain ⟨v2, hv2, hp2⟩ := h2 s v1 hv1
  exact ⟨v2, hv2, hp1.trans hp2⟩

theorem capturesLe_same {st st' : OptState}
    (h : st.captures = st'.captures) : capturesLe st st' := by
  intro s v hv
  exact ⟨v, by rw [← h]; exact hv, List.prefix_refl v⟩

theorem capturesLe_register (st : OptState) (scope_id : Nat)
    (h : lookupMap st.captures scope_id = none) :
    capturesLe st { st with captures := insertMap st.captures scope_id [] } := by
  intro s v hv
  by_cases hs : s = scope_id
  · rw [hs, h] at hv; cases hv
  · exact ⟨v, by simpa [lookupMap_insertMap_ne _ _ _ _ hs] using hv,
      List.prefix_refl v⟩

theorem capturesLe_modify (st : OptState) (scope_id : Nat)
    (f : List Nat → List Nat) (m' : List (Nat × List Nat))
    (hm : modifyMap st.captures scope_id f = some m')
    (hf : ∀ v, v <+: f v) :
    capturesLe st { st with captures := m' } := by
  intro s v hv
  have hl := modifyMap_lookup _ _ _ _ hm s
  by_cases hs : s = scope_id
  · subst hs
    rw [if_pos rfl, hv] at hl
    exact ⟨f v, hl, hf v⟩
  · rw [if_neg hs] at hl
    exact ⟨v, by rw [hl]; exact hv, List.prefix_refl v⟩

theorem function_captures_post_mono (db : Database) (st : OptState)
    (scope_id fscope : Nat) (st' : OptState)
    (h : function_captures_post db st scope_id fscope = some st') :
    capturesLe st st' := by
  unfold function_captures_post at h
  cases h1 : lookupMap st.captures fscope with
  | none => rw [h1] at h; cases h
  | some fcaps =>
    rw [h1] at h
    simp only [Option.bind_eq_bind, Option.some_bind] at h
    cases h2 : modifyMap st.captures scope_id
        (fun c => extendSet c (fcaps.filter
          (fun id => !(db.scope scope_id).is_local id))) with
    | none => rw [h2] at h; simp at h
    | some caps' =>
      rw [h2] at h
      simp only [Option.some_bind] at h
      have hle1 : capturesLe st { st with captures := caps' } :=
        capturesLe_modify st scope_id _ caps' h2
          (fun v => extendSet_prefix _ v)
      cases h3 : lookupMap caps' fscope with
      | none => rw [h3] at h; simp at h
      | some fcaps' =>
        rw [h3] at h
        simp only [Option.some_bind, Option.pure_def, Option.some.injEq] at h
        subst h
        exact capturesLe_trans hle1 (capturesLe_same rfl)

theorem scope_captures_post_mono (db : Database) (st : OptState)
    (scope_id nscope : Nat) (st' : OptState)
    (h : scope_captures_post db st scope_id nscope = some st') :
    capturesLe st st' := by
  unfold scope_captures_post at h
  cases h1 : lookupMap st.captures nscope with
  | none => rw [h1] at h; cases h
  | some ncaps =>
    rw [h1] at h
    simp only [Option.bind_eq_bind, Option.some_bind] at h
    cases h2 : modifyMap st.captures scope_id
        (fun c => extendSet c (ncaps.filter
          (fun id => !(db.scope scope_id).is_local id))) with
    | none => rw [h2] at h; simp at h
    | some caps' =>
      rw [h2] at h
      simp only [Option.some_bind] at h
      have hle1 : capturesLe st { st with captures := caps' } :=
        capturesLe_modify st scope_id _ caps' h2
          (fun v => extendSet_prefix _ v)
      by_cases hall : (db.scope nscope).local_symbols.all
          (fun s => (db.symbol s).is_definition) = true
      · rw [if_pos hall] at h
        simp only [Option.pure_def, Option.some.injEq] at h
        subst h
        exact capturesLe_trans hle1 (capturesLe_same rfl)
      · rw [if_neg hall] at h; cases h

theorem ccFold_mono (f : OptState → Nat → Option OptState)
    (hf : ∀ st x st', f st x = some st' → capturesLe st st') :
    ∀ (l : List Nat) (st st' : OptState),
      ccFold f st l = some st' → capturesLe st st'
  | [], st, st', h => by cases h; exact capturesLe_refl _
  | x :: t, st, st', h => by
    rw [ccFold] at h
    cases hx : f st x with
    | none => rw [hx] at h; cases h
    | some st1 =>
      rw [hx] at h
      exact capturesLe_trans (hf st x st1 hx) (ccFold_mono f hf t st1 st' h)

theorem ccFold_elem (f : OptState → Nat → Option OptState)
    (hf : ∀ st x st', f st x = some st' → capturesLe st st') :
    ∀ (l : List Nat) (st st' : OptState) (a : Nat),
      ccFold f st l = some st' → a ∈ l →
      ∃ s1 s2, f s1 a = some s2 ∧ capturesLe st s1 ∧ capturesLe s2 st'
  | [], st, st', a, h, ha => by cases ha
  | x :: t, st, st', a, h, ha => by
    rw [ccFold] at h
    cases hx : f st x with
    | none => rw [hx] at h; cases h
    | some st1 =>
      rw [hx] at h
      rcases List.mem_cons.mp ha with rfl | hat
      · exact ⟨st, st1, hx, capturesLe_refl st, ccFold_mono f hf t st1 st' h⟩
      · obtain ⟨s1, s2, hfa, hle1, hle2⟩ := ccFold_elem f hf t st1 st' a h hat
        exact ⟨s1, s2, hfa, capturesLe_trans (hf st x st1 hx) hle1, hle2⟩

/-- Capture tables only grow (pointwise, as prefixes) across any run of the
capture analysis. -/
theorem captures_mono (db : Database) : ∀ fuel : Nat,
    (∀ st scope_id hir_id st',
      compute_captures_entrypoint db fuel st scope_id hir_id = some st' →
      capturesLe st st')
    ∧ (∀ st scope_id hir_id st',
      compute_captures_hir db fuel st scope_id hir_id = some st' →
      capturesLe st st') := by
  intro fuel
  induction fuel with
  | zero =>
    refine ⟨?_, ?_⟩
    · intro st scope_id hir_id st' h
      exact nomatch h
    · intro st scope_id hir_id st' h
      exact nomatch h
  | succ fuel ih =>
    obtain ⟨ihE, ihH⟩ := ih
    constructor
    · intro st scope_id hir_id st' hrun
      rw [compute_captures_entrypoint] at hrun
      by_cases hreg : (lookupMap st.captures scope_id).isSome = true
      · rw [if_pos hreg] at hrun
        cases hrun
        exact capturesLe_refl _
      · rw [if_neg hreg] at hrun
        have h0 : lookupMap st.captures scope_id = none :=
          Option.not_isSome_iff_eq_none.mp hreg
        exact capturesLe_trans (capturesLe_register st scope_id h0)
          (ihH _ _ _ _ hrun)
    · intro st scope_id hir_id st' hrun
      rw [compute_captures_hir] at hrun
      cases hhir : db.hir hir_id with
      | Unknown => rw [hhir] at hrun; cases hrun
      | Atom b =>
        rw [hhir] at hrun
        cases hrun
        exact capturesLe_refl _
      | Reference symbol_id =>
        rw [hhir] at hrun
        dsimp only at hrun
        by_cases hcond : ((db.symbol symbol_id).is_capturable
            && !(db.scope scope_id).is_local symbol_id) = true
        · rw [if_pos hcond] at hrun
          cases hm : modifyMap st.captures scope_id
              (fun c => insertSet c symbol_id) with
          | none => rw [hm] at hrun; cases hrun
          | some caps' =>
            rw [hm] at hrun
            simp only [Option.bind_eq_bind, Option.some_bind] at hrun
            have hle1 : capturesLe st { st with captures := caps' } :=
              capturesLe_modify st scope_id _ caps' hm
                (fun v => insertSet_prefix v symbol_id)
            refine capturesLe_trans hle1 ?_
            cases hsym : db.symbol symbol_id with
            | Function fscope fhir =>
              rw [hsym] at hrun
              dsimp only at hrun
              cases hE : compute_captures_entrypoint db fuel
                  { st with captures := caps' } fscope fhir with
              | none => rw [hE] at hrun; simp at hrun
              | some st2 =>
                rw [hE] at hrun
                simp only [Option.some_bind] at hrun
                exact capturesLe_trans (ihE _ _ _ _ hE)
                  (function_captures_post_mono db st2 scope_id fscope st' hrun)
            | Parameter =>
              rw [hsym] at hrun
              cases hrun
              exact capturesLe_refl _
            | LetBinding hv =>
              rw [hsym] at hrun
              exact ihH _ _ _ _ hrun
            | ConstBinding hv =>
              rw [hsym] at hrun
              exact ihH _ _ _ _ hrun
        · rw [if_neg hcond] at hrun
          dsimp only at hrun
          cases hsym : db.symbol symbol_id with
          | Function fscope fhir =>
            rw [hsym] at hrun
            dsimp only at hrun
            cases hE : compute_captures_entrypoint db fuel st fscope fhir with
            | none => rw [hE] at hrun; simp at hrun
            | some st2 =>
              rw [hE] at hrun
              simp only [Option.bind_eq_bind, Option.some_bind] at hrun
              exact capturesLe_trans (ihE _ _ _ _ hE)
                (function_captures_post_mono db st2 scope_id fscope st' hrun)
          | Parameter =>
            rw [hsym] at hrun
            cases hrun
            exact capturesLe_refl _
          | LetBinding hv =>
            rw [hsym] at hrun
            exact ihH _ _ _ _ hrun
          | ConstBinding hv =>
            rw [hsym] at hrun
            exact ihH _ _ _ _ hrun
      | Scope nscope value =>
        rw [hhir] at hrun
        dsimp only [Option.bind_eq_bind] at hrun
        cases hE : compute_captures_entrypoint db fuel st nscope value with
        | none => rw [hE] at hrun; simp at hrun
        | some st2 =>
          rw [hE] at hrun
          simp only [Option.some_bind] at hrun
          exact capturesLe_trans (ihE _ _ _ _ hE)
            (scope_captures_post_mono db st2 scope_id nscope st' hrun)
      | FunctionCall callee args =>
        rw [hhir] at hrun
        dsimp only [Option.bind_eq_bind] at hrun
        cases hc : compute_captures_hir db fuel st scope_id callee with
        | none => rw [hc] at hrun; simp at hrun
        | some st1 =>
          rw [hc] at hrun
          simp only [Option.some_bind] at hrun
          exact capturesLe_trans (ihH _ _ _ _ hc)
            (ccFold_mono _ (fun s x s' hx => ihH _ _ _ _ hx) args st1 st' hrun)
      | BinaryOp op lhs rhs =>
        rw [hhir] at hrun
        dsimp only [Option.bind_eq_bind] at hrun
        cases hl : compute_captures_hir db fuel st scope_id lhs with
        | none => rw [hl] at hrun; simp at hrun
        | some st1 =>
          rw [hl] at hrun
          simp only [Option.some_bind] at hrun
          exact capturesLe_trans (ihH _ _ _ _ hl) (ihH _ _ _ _ hrun)
      | Not value =>
        rw [hhir] at hrun
        exact ihH _ _ _ _ hrun
      | If c t e =>
        rw [hhir] at hrun
        dsimp only [Option.bind_eq_bind] at hrun
        cases hc : compute_captures_hir db fuel st scope_id c with
        | none => rw [hc] at hrun; simp at hrun
        | some st1 =>
          rw [hc] at hrun
          simp only [Option.some_bind] at hrun
          cases ht : compute_captures_hir db fuel st1 scope_id t with
          | none => rw [ht] at hrun; simp at hrun
          | some st2 =>
            rw [ht] at hrun
            simp only [Option.some_bind] at hrun
            exact capturesLe_trans (ihH _ _ _ _ hc)
              (capturesLe_trans (ihH _ _ _ _ ht) (ihH _ _ _ _ hrun))
      | List items =>
        rw [hhir] at hrun
        exact ccFold_mono _ (fun s x s' hx => ihH _ _ _ _ hx) items st st' hrun
      | ListIndex value idx =>
        rw [hhir] at hrun
        exact ihH _ _ _ _ hrun

theorem mem_insertSet_self (s : List Nat) (x : Nat) : x ∈ insertSet s x := by
  unfold insertSet
  split
  · assumption
  · simp

theorem mem_lookupD_of_capturesLe {st st' : OptState} {k x : Nat}
    (h : x ∈ lookupD st.captures k) (hle : capturesLe st st') :
    x ∈ lookupD st'.captures k := by
  unfold lookupD at h ⊢
  cases hl : lookupMap st.captures k with
  | none => rw [hl] at h; cases h
  | some v =>
    rw [hl] at h
    obtain ⟨v', hv', hp⟩ := hle k v hl
    rw [hv']
    exact hp.subset h

theorem modifyMap_isSome {α : Type} :
    ∀ (m : List (Nat × α)) (k : Nat) (f : α → α) (m' : List (Nat × α)),
      modifyMap m k f = some m' → ∃ v, lookupMap m k = some v
  | [], k, f, m', h => by simp [modifyMap] at h
  | (k0, v0) :: rest, k, f, m', h => by
    by_cases h0 : k = k0
    · exact ⟨v0, by simp [lookupMap, h0]⟩
    · simp only [modifyMap, if_neg h0] at h
      cases hrec : modifyMap rest k f with
      | none => rw [hrec] at h; cases h
      | some rest' =>
        obtain ⟨v, hv⟩ := modifyMap_isSome rest k f rest' hrec
        exact ⟨v, by simp [lookupMap, h0, hv]⟩

/-- Every symbol reachable by the in-scope traversal (`RefIn`) that is
capturable and not local ends up in the scope's capture set once the
traversal of the node completes. -/
theorem refIn_captured (db : Database) :
    ∀ (h sym : Nat), RefIn db h sym →
    ∀ (fuel scope_id : Nat) (st st' : OptState),
      (db.symbol sym).is_capturable = true →
      (db.scope scope_id).is_local sym = false →
      compute_captures_hir db fuel st scope_id h = some st' →
      sym ∈ lookupD st'.captures scope_id := by
  intro h0 sym0 href
  induction href with
  | here h sym hhir =>
    intro fuel scope_id st st' hcap hloc hrun
    cases fuel with
    | zero => exact nomatch hrun
    | succ fuel =>
      rw [compute_captures_hir, hhir] at hrun
      dsimp only at hrun
      rw [if_pos (by simp [hcap, hloc])] at hrun
      cases hm : modifyMap st.captures scope_id
          (fun c => insertSet c sym) with
      | none => rw [hm] at hrun; cases hrun
      | some caps' =>
        rw [hm] at hrun
        simp only [Option.bind_eq_bind, Option.some_bind] at hrun
        obtain ⟨v, hv⟩ := modifyMap_isSome _ _ _ _ hm
        have hmem : sym ∈ lookupD (OptState.mk st.lirs caps'
            st.environments st.scope_inheritance).captures scope_id := by
          have hl := modifyMap_lookup _ _ _ _ hm scope_id
          rw [if_pos rfl, hv] at hl
          simp only [lookupD, hl, Option.map_some, Option.getD_some]
          exact mem_insertSet_self v sym
        have hle : capturesLe (OptState.mk st.lirs caps'
            st.environments st.scope_inheritance) st' := by
          cases hsym : db.symbol sym with
          | Function fscope fhir =>
            rw [hsym] at hrun
            dsimp only at hrun
            cases hE : compute_captures_entrypoint db fuel
                (OptState.mk st.lirs caps' st.environments
                  st.scope_inheritance) fscope fhir with
            | none => rw [hE] at hrun; simp at hrun
            | some st2 =>
              rw [hE] at hrun
              simp only [Option.some_bind] at hrun
              exact capturesLe_trans ((captures_mono db fuel).1 _ _ _ _ hE)
                (function_captures_post_mono db st2 scope_id fscope st' hrun)
          | Parameter =>
            rw [hsym] at hrun
            cases hrun
            exact capturesLe_refl _
          | LetBinding hv' =>
            rw [hsym] at hrun
            exact (captures_mono db fuel).2 _ _ _ _ hrun
          | ConstBinding hv' =>
            rw [hsym] at hrun
            exact (captures_mono db fuel).2 _ _ _ _ hrun
        exact mem_lookupD_of_capturesLe hmem hle
  | letBody h s hv sym hhir hsymS _ ih =>
    intro fuel scope_id st st' hcap hloc hrun
    cases fuel with
    | zero => exact nomatch hrun
    | succ fuel =>
      rw [compute_captures_hir, hhir] at hrun
      dsimp only at hrun
      by_cases hcond : ((db.symbol s).is_capturable
          && !(db.scope scope_id).is_local s) = true
      · rw [if_pos hcond] at hrun
        cases hm : modifyMap st.captures scope_id
            (fun c => insertSet c s) with
        | none => rw [hm] at hrun; cases hrun
        | some caps' =>
          rw [hm] at hrun
          simp only [Option.bind_eq_bind, Option.some_bind] at hrun
          rw [hsymS] at hrun
          exact ih fuel scope_id _ st' hcap hloc hrun
      · rw [if_neg hcond] at hrun
        dsimp only at hrun
        rw [hsymS] at hrun
        exact ih fuel scope_id st st' hcap hloc hrun
  | constBody h s hv sym hhir hsymS _ ih =>
    intro fuel scope_id st st' hcap hloc hrun
    cases fuel with
    | zero => exact nomatch hrun
    | succ fuel =>
      rw [compute_captures_hir, hhir] at hrun
      dsimp only at hrun
      by_cases hcond : ((db.symbol s).is_capturable
          && !(db.scope scope_id).is_local s) = true
      · rw [if_pos hcond] at hrun
        cases hm : modifyMap st.captures scope_id
            (fun c => insertSet c s) with
        | none => rw [hm] at hrun; cases hrun
        | some caps' =>
          rw [hm] at hrun
          simp only [Option.bind_eq_bind, Option.some_bind] at hrun
          rw [hsymS] at hrun
          exact ih fuel scope_id _ st' hcap hloc hrun
      · rw [if_neg hcond] at hrun
        dsimp only at hrun
        rw [hsymS] at hrun
        exact ih fuel scope_id st st' hcap hloc hrun
  | callCallee h c sym args hhir _ ih =>
    intro fuel scope_id st st' hcap hloc hrun
    cases fuel with
    | zero => exact nomatch hrun
    | succ fuel =>
      rw [compute_captures_hir, hhir] at hrun
      dsimp only [Option.bind_eq_bind] at hrun
      cases hc : compute_captures_hir db fuel st scope_id c with
      | none => rw [hc] at hrun; simp at hrun
      | some st1 =>
        rw [hc] at hrun
        simp only [Option.some_bind] at hrun
        exact mem_lookupD_of_capturesLe (ih fuel scope_id st st1 hcap hloc hc)
          (ccFold_mono _ (fun s x s' hx => (captures_mono db fuel).2 _ _ _ _ hx)
            args st1 st' hrun)
  | callArg h c a sym args hhir ha _ ih =>
    intro fuel scope_id st st' hcap hloc hrun
    cases fuel with
    | zero => exact nomatch hrun
    | succ fuel =>
      rw [compute_captures_hir, hhir] at hrun
      dsimp only [Option.bind_eq_bind] at hrun
      cases hc : compute_captures_hir db fuel st scope_id c with
      | none => rw [hc] at hrun; simp at hrun
      | some st1 =>
        rw [hc] at hrun
        simp only [Option.some_bind] at hrun
        obtain ⟨s1, s2, hfa, _, hle2⟩ := ccFold_elem _
          (fun s x s' hx => (captures_mono db fuel).2 _ _ _ _ hx)
          args st1 st' a hrun ha
        exact mem_lookupD_of_capturesLe
          (ih fuel scope_id s1 s2 hcap hloc hfa) hle2
  | binLhs h l r sym op hhir _ ih =>
    intro fuel scope_id st st' hcap hloc hrun
    cases fuel with
    | zero => exact nomatch hrun
    | succ fuel =>
      rw [compute_captures_hir, hhir] at hrun
      dsimp only [Option.bind_eq_bind] at hrun
      cases hl : compute_captures_hir db fuel st scope_id l with
      | none => rw [hl] at hrun; simp at hrun
      | some st1 =>
        rw [hl] at hrun
        simp only [Option.some_bind] at hrun
        exact mem_lookupD_of_capturesLe (ih fuel scope_id st st1 hcap hloc hl)
          ((captures_mono db fuel).2 _ _ _ _ hrun)
  | binRhs h l r sym op hhir _ ih =>
    intro fuel scope_id st st' hcap hloc hrun
    cases fuel with
    | zero => exact nomatch hrun
    | succ fuel =>
      rw [compute_captures_hir, hhir] at hrun
      dsimp only [Option.bind_eq_bind] at hrun
      cases hl : compute_captures_hir db fuel st scope_id l with
      | none => rw [hl] at hrun; simp at hrun
      | some st1 =>
        rw [hl] at hrun
        simp only [Option.some_bind] at hrun
        exact ih fuel scope_id st1 st' hcap hloc hrun
  | notValue h v sym hhir _ ih =>
    intro fuel scope_id st st' hcap hloc hrun
    cases fuel with
    | zero => exact nomatch hrun
    | succ fuel =>
      rw [compute_captures_hir, hhir] at hrun
      exact ih fuel scope_id st st' hcap hloc hrun
  | ifCond h c t e sym hhir _ ih =>
    intro fuel scope_id st st' hcap hloc hrun
    cases fuel with
    | zero => exact nomatch hrun
    | succ fuel =>
      rw [compute_captures_hir, hhir] at hrun
      dsimp only [Option.bind_eq_bind] at hrun
      cases hc : compute_captures_hir db fuel st scope_id c with
      | none => rw [hc] at hrun; simp at hrun
      | some st1 =>
        rw [hc] at hrun
        simp only [Option.some_bind] at hrun
        cases ht : compute_captures_hir db fuel st1 scope_id t with
        | none => rw [ht] at hrun; simp at hrun
        | some st2 =>
          rw [ht] at hrun
          simp only [Option.some_bind] at hrun
          exact mem_lookupD_of_capturesLe
            (ih fuel scope_id st st1 hcap hloc hc)
            (capturesLe_trans ((captures_mono db fuel).2 _ _ _ _ ht)
              ((captures_mono db fuel).2 _ _ _ _ hrun))
  | ifThen h c t e sym hhir _ ih =>
    intro fuel scope_id st st' hcap hloc hrun
    cases fuel with
    | zero => exact nomatch hrun
    | succ fuel =>
      rw [compute_captures_hir, hhir] at hrun
      dsimp only [Option.bind_eq_bind] at hrun
      cases hc : compute_captures_hir db fuel st scope_id c with
      | none => rw [hc] at hrun; simp at hrun
      | some st1 =>
        rw [hc] at hrun
        simp only [Option.some_bind] at hrun
        cases ht : compute_captures_hir db fuel st1 scope_id t with
        | none => rw [ht] at hrun; simp at hrun
        | some st2 =>
          rw [ht] at hrun
          simp only [Option.some_bind] at hrun
          exact mem_lookupD_of_capturesLe
            (ih fuel scope_id st1 st2 hcap hloc ht)
            ((captures_mono db fuel).2 _ _ _ _ hrun)
  | ifElse h c t e sym hhir _ ih =>
    intro fuel scope_id st st' hcap hloc hrun
    cases fuel with
    | zero => exact nomatch hrun
    | succ fuel =>
      rw [compute_captures_hir, hhir] at hrun
      dsimp only [Option.bind_eq_bind] at hrun
      cases hc : compute_captures_hir db fuel st scope_id c with
      | none => rw [hc] at hrun; simp at hrun
      | some st1 =>
        rw [hc] at hrun
        simp only [Option.some_bind] at hrun
        cases ht : compute_captures_hir db fuel st1 scope_id t with
        | none => rw [ht] at hrun; simp at hrun
        | some st2 =>
          rw [ht] at hrun
          simp only [Option.some_bind] at hrun
          exact ih fuel scope_id st2 st' hcap hloc hrun
  | listItem h a sym items hhir ha _ ih =>
    intro fuel scope_id st st' hcap hloc hrun
    cases fuel with
    | zero => exact nomatch hrun
    | succ fuel =>
      rw [compute_captures_hir, hhir] at hrun
      obtain ⟨s1, s2, hfa, _, hle2⟩ := ccFold_elem _
        (fun s x s' hx => (captures_mono db fuel).2 _ _ _ _ hx)
        items st st' a hrun ha
      exact mem_lookupD_of_capturesLe
        (ih fuel scope_id s1 s2 hcap hloc hfa) hle2
  | listIndexValue h v sym idx hhir _ ih =>
    intro fuel scope_id st st' hcap hloc hrun
    cases fuel with
    | zero => exact nomatch hrun
    | succ fuel =>
      rw [compute_captures_hir, hhir] at hrun
      exact ih fuel scope_id st st' hcap hloc hrun

/-- C3 (amended): after capture analysis of a scope, its capture set contains
every capturable non-local symbol referenced inside the scope — in
particular every used function symbol itself.  The full transitive inclusion
`captures(S) ⊇ captures(scope_of(f)) \\ local(S)` holds only with the value
`captures(scope_of(f))` had when the reference was processed; the memoized
analysis can miss captures added to an in-progress scope later, so the
inclusion over the final capture sets fails (see the counterexample). -/
theorem c3_capture_superset (db : Database)
    (scope_id body sym fuel : Nat) (st st' : OptState)
    (href : RefIn db body sym)
    (hcap : (db.symbol sym).is_capturable = true)
    (hloc : (db.scope scope_id).is_local sym = false)
    (hreg : registeredScope st scope_id = false)
    (hrun : compute_captures_entrypoint db fuel st scope_id body = some st') :
    sym ∈ lookupD st'.captures scope_id := by
  cases fuel with
  | zero => exact nomatch hrun
  | succ fuel =>
    rw [compute_captures_entrypoint] at hrun
    rw [if_neg (by simp [registeredScope] at hreg; simp [hreg])] at hrun
    exact refIn_captured db body sym href fuel scope_id _ st' hcap hloc hrun

/-- C3 counterexample: in the mutually recursive program `exDbMutual`,
`f` (symbol 1, scope 2) is used inside `g`'s scope 3, and after the full
analysis `h` (symbol 3) is a capture of `f`'s scope and not local to `g`'s
scope — yet it is missing from `g`'s capture set, violating the claimed
superset over the final capture sets. -/
theorem c3_counterexample :
    RefIn exDbMutual 3 1
    ∧ (1 : Nat) ∈ (exDbMutual.scope 3).used_symbols
    ∧ exDbMutual.symbol 1 = Symbol.Function 2 10
    ∧ lookupMap exMutualRun.captures 2 = some [2, 1, 3]
    ∧ lookupMap exMutualRun.captures 3 = some [1, 2]
    ∧ (3 : Nat) ∈ lookupD exMutualRun.captures 2
    ∧ (3 : Nat) ∉ (exDbMutual.scope 3).local_symbols
    ∧ (3 : Nat) ∉ lookupD exMutualRun.captures 3 := by
  refine ⟨RefIn.callCallee 3 1 1 [2] rfl (RefIn.here 1 1 rfl),
    by decide, rfl, rfl, rfl, by decide, by decide, by decide⟩

/-- C3 witness: the direct-capture inclusion at a concrete run — `f` is
referenced inside main's scope and lands in its capture set. -/
theorem c3_witness : (1 : Nat) ∈ lookupD exMutualRun.captures 1 := by
  have hrun : compute_captures_entrypoint exDbMutual 60 initState 1 13 =
      some exMutualRun := rfl
  exact c3_capture_superset exDbMutual 1 13 1 60 initState exMutualRun
    (RefIn.callCallee 13 11 1 [12] rfl (RefIn.here 11 1 rfl))
    rfl rfl rfl hrun

theorem registeredScope_mono {st st' : OptState} {k : Nat}
    (hle : capturesLe st st') (h : registeredScope st k = true) :
    registeredScope st' k = true := by
  unfold registeredScope at h ⊢
  cases hl : lookupMap st.captures k with
  | none => rw [hl] at h; cases h
  | some v =>
    obtain ⟨v', hv', _⟩ := hle k v hl
    rw [hv']
    rfl

theorem countP_succ_le (p q : Nat → Bool) :
    ∀ (l : List Nat) (a : Nat), a ∈ l → p a = true → q a = false →
      (∀ x ∈ l, q x = true → p x = true) →
      l.countP q + 1 ≤ l.countP p := by
  intro l
  induction l with
  | nil => intro a ha _ _ _; cases ha
  | cons x t ih =>
    intro a ha hp hq hmono
    have hmt : ∀ x ∈ t, q x = true → p x = true :=
      fun y hy => hmono y (List.mem_cons_of_mem x hy)
    have hcount : t.countP q ≤ t.countP p := List.countP_mono_left hmt
    rcases List.mem_cons.mp ha with rfl | hat
    · simp only [List.countP_cons, hp, hq]
      simp
      omega
    · have ht := ih a hat hp hq hmt
      by_cases hqx : q x = true
      · simp only [List.countP_cons, hqx, hmono x (List.mem_cons_self x t) hqx]
        simp
        omega
      · rw [Bool.not_eq_true] at hqx
        simp only [List.countP_cons, hqx]
        cases hpx : p x
        · simp
          omega
        · simp
          omega

theorem unreg_le_of_capturesLe {db : Database} {st st' : OptState}
    (hle : capturesLe st st') : unreg db st' ≤ unreg db st := by
  unfold unreg
  refine List.countP_mono_left ?_
  intro a _ ha
  by_cases hr : registeredScope st a = true
  · have := registeredScope_mono hle hr
    rw [this] at ha
    cases ha
  · simp [Bool.not_eq_true] at hr
    simp [hr]

theorem unreg_pos {db : Database} {st : OptState} {k : Nat}
    (hk : k < db.scopes.length) (h : registeredScope st k = false) :
    1 ≤ unreg db st := by
  unfold unreg
  rw [Nat.succ_le_iff, List.countP_pos]
  exact ⟨k, List.mem_range.mpr hk, by simp [h]⟩

theorem unreg_register {db : Database} {st : OptState} {scope_id : Nat}
    (hk : scope_id < db.scopes.length)
    (h : registeredScope st scope_id = false) :
    unreg db { st with captures := insertMap st.captures scope_id [] } + 1
      ≤ unreg db st := by
  unfold unreg
  refine countP_succ_le _ _ (List.range db.scopes.length) scope_id
    (List.mem_range.mpr hk) (by simp [h]) ?_ ?_
  · simp [registeredScope, lookupMap_insertMap_self]
  · intro x _ hx
    by_cases hxk : x = scope_id
    · subst hxk
      simp [registeredScope, lookupMap_insertMap_self] at hx
    · simp only [registeredScope, Bool.not_eq_true',
        Option.not_isSome_iff_eq_none] at hx ⊢
      rwa [lookupMap_insertMap_ne _ _ _ _ hxk] at hx

theorem dbWF_node {db : Database} (hwf : dbWF db = true) {i : Nat}
    (hi : i < db.hirs.length) : hirNodeWF db i = true := by
  unfold dbWF at hwf
  rw [List.all_eq_true] at hwf
  exact hwf i (List.mem_range.mpr hi)

theorem entry_registers (db : Database) (fuel : Nat) (st : OptState)
    (scope_id hir_id : Nat) (st' : OptState)
    (h : compute_captures_entrypoint db fuel st scope_id hir_id = some st') :
    registeredScope st' scope_id = true := by
  cases fuel with
  | zero => exact nomatch h
  | succ fuel =>
    rw [compute_captures_entrypoint] at h
    by_cases hreg : (lookupMap st.captures scope_id).isSome = true
    · rw [if_pos hreg] at h
      cases h
      exact hreg
    · rw [if_neg hreg] at h
      refine registeredScope_mono ((captures_mono db fuel).2 _ _ _ _ h) ?_
      simp [registeredScope, lookupMap_insertMap_self]

theorem function_captures_post_some (db : Database) (st : OptState)
    (scope_id fscope : Nat)
    (h1 : registeredScope st scope_id = true)
    (h2 : registeredScope st fscope = true) :
    ∃ st', function_captures_post db st scope_id fscope = some st' := by
  obtain ⟨fcaps, hfc⟩ := Option.isSome_iff_exists.mp h2
  obtain ⟨v, hv⟩ := Option.isSome_iff_exists.mp h1
  obtain ⟨caps', hm⟩ := modifyMap_of_lookup st.captures scope_id
    (fun c => extendSet c (fcaps.filter
      (fun id => !(db.scope scope_id).is_local id))) v hv
  have hl := modifyMap_lookup _ _ _ _ hm fscope
  have hl2 : ∃ fcaps', lookupMap caps' fscope = some fcaps' := by
    by_cases hf : fscope = scope_id
    · rw [if_pos hf] at hl
      rw [hl, hv]
      exact ⟨_, rfl⟩
    · rw [if_neg hf] at hl
      rw [hl, hfc]
      exact ⟨_, rfl⟩
  obtain ⟨fcaps', hfc'⟩ := hl2
  refine ⟨⟨st.lirs, caps',
    insertMap st.environments fscope (composeFunctionEnv db fscope fcaps'),
    st.scope_inheritance⟩, ?_⟩
  unfold function_captures_post
  rw [hfc]
  simp only [Option.bind_eq_bind, Option.some_bind]
  rw [hm]
  simp only [Option.some_bind]
  rw [hfc']
  simp only [Option.some_bind, Option.pure_def]

theorem scope_captures_post_some (db : Database) (st : OptState)
    (scope_id nscope : Nat)
    (h1 : registeredScope st scope_id = true)
    (h2 : registeredScope st nscope = true)
    (hall : (db.scope nscope).local_symbols.all
      (fun s => (db.symbol s).is_definition) = true) :
    ∃ st', scope_captures_post db st scope_id nscope = some st' := by
  obtain ⟨ncaps, hnc⟩ := Option.isSome_iff_exists.mp h2
  obtain ⟨v, hv⟩ := Option.isSome_iff_exists.mp h1
  obtain ⟨caps', hm⟩ := modifyMap_of_lookup st.captures scope_id
    (fun c => extendSet c (ncaps.filter
      (fun id => !(db.scope scope_id).is_local id))) v hv
  refine ⟨⟨st.lirs, caps', insertMap st.environments nscope
      ((db.scope nscope).local_symbols.foldl insertSet []),
    insertMap st.scope_inheritance nscope scope_id⟩, ?_⟩
  unfold scope_captures_post
  rw [hnc]
  simp only [Option.bind_eq_bind, Option.some_bind]
  rw [hm]
  simp only [Option.some_bind]
  rw [if_pos hall]
  simp only [Option.pure_def]

theorem mul_split (u K : Nat) (hu : 1 ≤ u) : u * K = (u - 1) * K + K := by
  conv_lhs => rw [show u = (u - 1) + 1 from (Nat.succ_pred_eq_of_pos hu).symm]
  ring

/-- The fueled capture analysis succeeds whenever the fuel dominates the
measure `unregistered-scopes × (hir-count + 2) + hir-id`: the memo
registration strictly shrinks the unregistered count on every first entry
into a scope, and all other recursion descends to smaller HIR ids. -/
theorem cc_success (db : Database) (hwf : dbWF db = true) : ∀ fuel : Nat,
    (∀ st scope_id hir_id,
      registeredScope st scope_id = true →
      hir_id < db.hirs.length →
      unreg db st * (db.hirs.length + 2) + hir_id + 2 ≤ fuel →
      ∃ st', compute_captures_hir db fuel st scope_id hir_id = some st')
    ∧ (∀ st scope_id hir_id,
      scope_id < db.scopes.length →
      hir_id < db.hirs.length →
      (registeredScope st scope_id = true → 1 ≤ fuel) →
      (registeredScope st scope_id = false →
        (unreg db st - 1) * (db.hirs.length + 2) + hir_id + 3 ≤ fuel) →
      ∃ st', compute_captures_entrypoint db fuel st scope_id hir_id
        = some st') := by
  intro fuel
  induction fuel with
  | zero =>
    constructor
    · intro st scope_id hir_id _ _ hb
      omega
    · intro st scope_id hir_id _ _ h1 h2
      by_cases hreg : registeredScope st scope_id = true
      · have := h1 hreg
        omega
      · have hregF : registeredScope st scope_id = false := by
          revert hreg
          cases registeredScope st scope_id <;> simp
        have := h2 hregF
        omega
  | succ fuel ih =>
    obtain ⟨ihH, ihE⟩ := ih
    have hfold : ∀ (scope_id : Nat) (l : List Nat) (st : OptState) (b : Nat),
        registeredScope st scope_id = true →
        (∀ e ∈ l, e < b) → b ≤ db.hirs.length →
        unreg db st * (db.hirs.length + 2) + b + 1 ≤ fuel →
        ∃ st', ccFold (fun st a => compute_captures_hir db fuel st scope_id a)
          st l = some st' := by
      intro scope_id l
      induction l with
      | nil =>
        intro st b _ _ _ _
        exact ⟨st, rfl⟩
      | cons e t iht =>
        intro st b hreg hel hbH hb
        have he : e < b := hel e (List.mem_cons_self e t)
        obtain ⟨st1, h1⟩ := ihH st scope_id e hreg (lt_of_lt_of_le he hbH)
          (by omega)
        have hle := (captures_mono db fuel).2 _ _ _ _ h1
        have hu1 : unreg db st1 ≤ unreg db st := unreg_le_of_capturesLe hle
        obtain ⟨st', h2⟩ := iht st1 b (registeredScope_mono hle hreg)
          (fun x hx => hel x (List.mem_cons_of_mem e hx)) hbH
          (by
            have := Nat.mul_le_mul_right (db.hirs.length + 2) hu1
            omega)
        refine ⟨st', ?_⟩
        rw [ccFold, h1]
        exact h2
    have hentry : ∀ st scope_id hir_id,
        scope_id < db.scopes.length →
        hir_id < db.hirs.length →
        (registeredScope st scope_id = true → 1 ≤ fuel + 1) →
        (registeredScope st scope_id = false →
          (unreg db st - 1) * (db.hirs.length + 2) + hir_id + 3 ≤ fuel + 1) →
        ∃ st', compute_captures_entrypoint db (fuel + 1) st scope_id hir_id
          = some st' := by
      intro st scope_id hir_id hs hh _ hb2
      by_cases hreg : (lookupMap st.captures scope_id).isSome = true
      · exact ⟨st, by rw [compute_captures_entrypoint, if_pos hreg]⟩
      · have hregF : registeredScope st scope_id = false := by
          revert hreg
          unfold registeredScope
          cases (lookupMap st.captures scope_id).isSome <;> simp
        have hbound := hb2 hregF
        have hu : 1 ≤ unreg db st := unreg_pos hs hregF
        have hureg : unreg db
            { st with captures := insertMap st.captures scope_id [] } + 1
            ≤ unreg db st := unreg_register hs hregF
        have hreg1 : registeredScope
            { st with captures := insertMap st.captures scope_id [] }
            scope_id = true := by
          simp [registeredScope, lookupMap_insertMap_self]
        obtain ⟨st', hrun⟩ := ihH _ scope_id hir_id hreg1 hh
          (by
            have := Nat.mul_le_mul_right (db.hirs.length + 2)
              (show unreg db { st with
                captures := insertMap st.captures scope_id [] }
                ≤ unreg db st - 1 by omega)
            omega)
        exact ⟨st', by rw [compute_captures_entrypoint, if_neg hreg]
                       exact hrun⟩
    refine ⟨?_, hentry⟩
    intro st scope_id hir_id hreg hh hb
    have hnode := dbWF_node hwf hh
    unfold hirNodeWF at hnode
    have hfuel1 : unreg db st * (db.hirs.length + 2) + hir_id + 1 ≤ fuel := by
      omega
    rw [compute_captures_hir]
    cases hhir : db.hir hir_id with
    | Unknown =>
      rw [hhir] at hnode
      cases hnode
    | Atom b =>
      exact ⟨st, rfl⟩
    | Reference symbol_id =>
      rw [hhir] at hnode
      simp only [Bool.and_eq_true, decide_eq_true_eq] at hnode
      dsimp only
      have hstep : ∃ st1, (if ((db.symbol symbol_id).is_capturable
            && !(db.scope scope_id).is_local symbol_id) = true then
            (do
              let caps' ← modifyMap st.captures scope_id
                (fun c => insertSet c symbol_id)
              pure { st with captures := caps' } : Option OptState)
          else some st) = some st1
          ∧ capturesLe st st1 := by
        by_cases hcond : ((db.symbol symbol_id).is_capturable
            && !(db.scope scope_id).is_local symbol_id) = true
        · obtain ⟨v, hv⟩ := Option.isSome_iff_exists.mp hreg
          obtain ⟨caps', hm⟩ := modifyMap_of_lookup st.captures scope_id
            (fun c => insertSet c symbol_id) v hv
          refine ⟨{ st with captures := caps' }, ?_, ?_⟩
          · rw [if_pos hcond, hm]
            rfl
          · exact capturesLe_modify st scope_id _ caps' hm
              (fun w => insertSet_prefix w _)
        · exact ⟨st, by rw [if_neg hcond], capturesLe_refl st⟩
      obtain ⟨st1, hstepEq, hle1⟩ := hstep
      rw [hstepEq]
      have hreg1 : registeredScope st1 scope_id = true :=
        registeredScope_mono hle1 hreg
      have hu1 : unreg db st1 ≤ unreg db st := unreg_le_of_capturesLe hle1
      cases hsym : db.symbol symbol_id with
      | Function fscope fhir =>
        rw [hsym] at hnode
        simp only [Bool.and_eq_true, decide_eq_true_eq] at hnode
        have hfs : fscope < db.scopes.length := hnode.2.1
        have hfh : fhir < db.hirs.length := hnode.2.2
        obtain ⟨st2, hE⟩ := ihE st1 fscope fhir hfs hfh
          (fun _ => by omega)
          (by
            intro hregf
            have hregf0 : registeredScope st fscope = false := by
              by_cases hx : registeredScope st fscope = true
              · rw [registeredScope_mono hle1 hx] at hregf
                cases hregf
              · revert hx
                cases registeredScope st fscope <;> simp
            have hupos : 1 ≤ unreg db st := unreg_pos hfs hregf0
            have hsplit := mul_split (unreg db st) (db.hirs.length + 2) hupos
            have hmul := Nat.mul_le_mul_right (db.hirs.length + 2)
              (Nat.sub_le_sub_right hu1 1)
            omega)
        have hleE := (captures_mono db fuel).1 _ _ _ _ hE
        obtain ⟨st', hpost⟩ := function_captures_post_some db st2 scope_id
          fscope (registeredScope_mono hleE hreg1)
          (entry_registers db fuel st1 fscope fhir st2 hE)
        refine ⟨st', ?_⟩
        dsimp only
        rw [hE]
        simp only [Option.bind_eq_bind, Option.some_bind]
        exact hpost
      | Parameter =>
        exact ⟨st1, rfl⟩
      | LetBinding hv =>
        rw [hsym] at hnode
        simp only [decide_eq_true_eq] at hnode
        have hlt : hv < hir_id := hnode.2
        exact ihH st1 scope_id hv hreg1 (by omega)
          (by
            have := Nat.mul_le_mul_right (db.hirs.length + 2) hu1
            omega)
      | ConstBinding hv =>
        rw [hsym] at hnode
        simp only [decide_eq_true_eq] at hnode
        have hlt : hv < hir_id := hnode.2
        exact ihH st1 scope_id hv hreg1 (by omega)
          (by
            have := Nat.mul_le_mul_right (db.hirs.length + 2) hu1
            omega)
    | Scope nscope value =>
      rw [hhir] at hnode
      simp only [Bool.and_eq_true, decide_eq_true_eq] at hnode
      have hns : nscope < db.scopes.length := hnode.1.1
      have hvlt : value < hir_id := hnode.1.2
      have hall : (db.scope nscope).local_symbols.all
          (fun s => (db.symbol s).is_definition) = true := hnode.2
      obtain ⟨st2, hE⟩ := ihE st nscope value hns (by omega)
        (fun _ => by omega)
        (by
          intro hregn
          have hupos : 1 ≤ unreg db st := unreg_pos hns hregn
          have hsplit := mul_split (unreg db st) (db.hirs.length + 2) hupos
          omega)
      have hleE := (captures_mono db fuel).1 _ _ _ _ hE
      obtain ⟨st', hpost⟩ := scope_captures_post_some db st2 scope_id nscope
        (registeredScope_mono hleE hreg)
        (entry_registers db fuel st nscope value st2 hE) hall
      refine ⟨st', ?_⟩
      dsimp only [Option.bind_eq_bind]
      rw [hE]
      simp only [Option.some_bind]
      exact hpost
    | FunctionCall callee args =>
      rw [hhir] at hnode
      simp only [Bool.and_eq_true, decide_eq_true_eq, List.all_eq_true] at hnode
      obtain ⟨st1, h1⟩ := ihH st scope_id callee hreg (by omega) (by omega)
      have hle := (captures_mono db fuel).2 _ _ _ _ h1
      have hu1 : unreg db st1 ≤ unreg db st := unreg_le_of_capturesLe hle
      obtain ⟨st', h2⟩ := hfold scope_id args st1 hir_id
        (registeredScope_mono hle hreg)
        (fun e he => by
          have := hnode.2 e he
          simpa using this)
        (by omega)
        (by
          have := Nat.mul_le_mul_right (db.hirs.length + 2) hu1
          omega)
      refine ⟨st', ?_⟩
      dsimp only [Option.bind_eq_bind]
      rw [h1]
      simp only [Option.some_bind]
      exact h2
    | BinaryOp op lhs rhs =>
      rw [hhir] at hnode
      simp only [Bool.and_eq_true, decide_eq_true_eq] at hnode
      obtain ⟨st1, h1⟩ := ihH st scope_id lhs hreg (by omega) (by omega)
      have hle := (captures_mono db fuel).2 _ _ _ _ h1
      have hu1 : unreg db st1 ≤ unreg db st := unreg_le_of_capturesLe hle
      obtain ⟨st', h2⟩ := ihH st1 scope_id rhs
        (registeredScope_mono hle hreg) (by omega)
        (by
          have := Nat.mul_le_mul_right (db.hirs.length + 2) hu1
          omega)
      refine ⟨st', ?_⟩
      dsimp only [Option.bind_eq_bind]
      rw [h1]
      simp only [Option.some_bind]
      exact h2
    | Not value =>
      rw [hhir] at hnode
      simp only [decide_eq_true_eq] at hnode
      exact ihH st scope_id value hreg (by omega) (by omega)
    | If c t e =>
      rw [hhir] at hnode
      simp only [Bool.and_eq_true, decide_eq_true_eq] at hnode
      obtain ⟨st1, h1⟩ := ihH st scope_id c hreg (by omega) (by omega)
      have hle1 := (captures_mono db fuel).2 _ _ _ _ h1
      have hu1 : unreg db st1 ≤ unreg db st := unreg_le_of_capturesLe hle1
      obtain ⟨st2, h2⟩ := ihH st1 scope_id t
        (registeredScope_mono hle1 hreg) (by omega)
        (by
          have := Nat.mul_le_mul_right (db.hirs.length + 2) hu1
          omega)
      have hle2 := (captures_mono db fuel).2 _ _ _ _ h2
      have hu2 : unreg db st2 ≤ unreg db st1 := unreg_le_of_capturesLe hle2
      obtain ⟨st', h3⟩ := ihH st2 scope_id e
        (registeredScope_mono hle2 (registeredScope_mono hle1 hreg))
        (by omega)
        (by
          have ha := Nat.mul_le_mul_right (db.hirs.length + 2) hu1
          have hb2 := Nat.mul_le_mul_right (db.hirs.length + 2) hu2
          omega)
      refine ⟨st', ?_⟩
      dsimp only [Option.bind_eq_bind]
      rw [h1]
      simp only [Option.some_bind]
      rw [h2]
      simp only [Option.some_bind]
      exact h3
    | List items =>
      rw [hhir] at hnode
      simp only [List.all_eq_true] at hnode
      obtain ⟨st', h1⟩ := hfold scope_id items st hir_id hreg
        (fun e he => by
          have := hnode e he
          simpa using this)
        (by omega) (by omega)
      exact ⟨st', h1⟩
    | ListIndex value idx =>
      rw [hhir] at hnode
      simp only [decide_eq_true_eq] at hnode
      exact ihH st scope_id value hreg (by omega) (by omega)

/-- C10: capture analysis terminates on every well-formed HIR graph,
including mutually recursive function references: a scope's empty capture set
is registered before its body is traversed, so every re-entry into a visited
scope returns immediately, and a fuel of
`#scopes * (#hir-nodes + 2) + #hir-nodes + 3` always suffices. -/
theorem c10_capture_analysis_terminates (db : Database)
    (scope_id hir_id : Nat) (hwf : dbWF db = true)
    (hs : scope_id < db.scopes.length) (hh : hir_id < db.hirs.length) :
    ∃ st', compute_captures_entrypoint db
      (db.scopes.length * (db.hirs.length + 2) + db.hirs.length + 3)
      initState scope_id hir_id = some st' := by
  have hu : unreg db initState ≤ db.scopes.length := by
    unfold unreg
    exact le_trans (List.countP_le_length _) (by simp)
  refine (cc_success db hwf _).2 initState scope_id hir_id hs hh
    (fun _ => by omega) ?_
  intro _
  have := Nat.mul_le_mul_right (db.hirs.length + 2)
    (Nat.sub_le_sub_right hu 1)
  have hsub : (db.scopes.length - 1) * (db.hirs.length + 2)
      ≤ db.scopes.length * (db.hirs.length + 2) :=
    Nat.mul_le_mul_right _ (Nat.sub_le _ _)
  omega

/-- C10 witness: the analysis of the mutually recursive program `exDbMutual`
(with `f` ↔ `g` recursion) succeeds within the computed fuel bound. -/
theorem c10_witness :
    (compute_captures_entrypoint exDbMutual
      (exDbMutual.scopes.length * (exDbMutual.hirs.length + 2)
        + exDbMutual.hirs.length + 3)
      initState 1 13).isSome = true := by
  obtain ⟨st', hst⟩ := c10_capture_analysis_terminates exDbMutual 1 13
    (by decide) (by decide) (by decide)
  rw [hst]
  rfl

end Rue
